import Mathlib

/-!
Verification of the geometric engine of the Technical-Drawing-Practice app.

The TypeScript sources are shallowly embedded as follows.

* `PolyCube` (`number[][][]`) becomes `List (List (List Nat))`; the JS
  bounds-checked access `polyCube[x]?.[y]?.[z] === 1` becomes `cell3 p x y z = 1`
  where out-of-range indices read the default `0` (JS `undefined` is `!== 1`).
* 2D grids (`number[][]`) become `List (List Nat)` with the analogous `cell2`.
* `Math.random()`-driven code is derandomized by threading an explicit stream
  of naturals (`RandSrc`); the JS idiom `Math.floor(Math.random() * k)` (a
  uniform draw from `[0, k)`) becomes `draw rs k = (rs.headD 0 % k, rs.tail)`.
* The string-keyed `tempBlockMap` of the generator always contains exactly the
  coordinates of `existingBlocks` (keys `"x,y,z"` encode the triple
  injectively), so both are modelled by one list of placed coordinates.
* The in-place stable `Array.prototype.sort` with comparator `(a,b) => b.y - a.y`
  is modelled by a stable insertion sort descending on `y` (any two stable
  sorts under the same key order agree pointwise).
* Floating point trigonometry of the isometric renderer is modelled over `ℝ`.
-/

/-- GRID_SIZE from constants.ts. -/
abbrev gridSize : Nat := 8

/-- MAX_REGEN_ATTEMPTS from constants.ts. -/
abbrev maxRegenAttempts : Nat := 50

abbrev Grid2 := List (List Nat)

abbrev PolyCube := List (List (List Nat))

/-- Bounds-defaulted read of a 2D grid cell (`grid[r]?.[c]`, missing = 0). -/
def cell2 (g : Grid2) (r c : Nat) : Nat := (g.getD r []).getD c 0

/-- Bounds-defaulted read of a 3D voxel (`polyCube[x]?.[y]?.[z]`, missing = 0). -/
def cell3 (p : PolyCube) (x y z : Nat) : Nat := ((p.getD x []).getD y []).getD z 0

/-- In-range functional update of a 2D grid cell (`grid[r][c] = v`). -/
def set2 (g : Grid2) (r c v : Nat) : Grid2 := g.set r ((g.getD r []).set c v)

/-- In-range functional update of a voxel to 1 (`polyCube[x][y][z] = 1`). -/
def set3 (p : PolyCube) (x y z : Nat) : PolyCube :=
  p.set x ((p.getD x []).set y (((p.getD x []).getD y []).set z 1))

/-- `createEmptyGrid(rows, cols)` from projectionCalculator. -/
def emptyGrid (rows cols : Nat) : Grid2 :=
  List.replicate rows (List.replicate cols 0)

/-- The all-zero GRID_SIZE × GRID_SIZE × GRID_SIZE cube the normalizer and the
generator allocate with nested `Array(GRID_SIZE).fill(0).map(...)`. -/
def zeroCube : PolyCube :=
  List.replicate gridSize (List.replicate gridSize (List.replicate gridSize 0))

/-- All (row, col) pairs scanned by the 2D loops, in loop order. -/
def cellList2 : List (Nat × Nat) :=
  (List.range gridSize).flatMap fun r => (List.range gridSize).map fun c => (r, c)

/-- All (x, y, z) triples scanned by the 3D loops, in loop order. -/
def cellList3 : List (Nat × Nat × Nat) :=
  (List.range gridSize).flatMap fun x =>
    (List.range gridSize).flatMap fun y =>
      (List.range gridSize).map fun z => (x, y, z)

/-- The `filledCells` list collected by `normalize2DGrid`. -/
def filled2 (g : Grid2) : List (Nat × Nat) :=
  cellList2.filter fun rc => cell2 g rc.1 rc.2 == 1

/-- The `blocks` list collected by the 3D scans (loop order x, then y, then z). -/
def blocksOf (p : PolyCube) : List (Nat × Nat × Nat) :=
  cellList3.filter fun b => cell3 p b.1 b.2.1 b.2.2 == 1

/-- Number of occupied voxels of a polyCube (within the scanned grid window). -/
def blockCount (p : PolyCube) : Nat := (blocksOf p).length

/-- `minX` of `normalizePolyCube`: running minimum over occupied x, seeded with
GRID_SIZE (the collection loop and the fold visit the same cells in order). -/
def minXof (p : PolyCube) : Nat := (blocksOf p).foldl (fun m b => min m b.1) gridSize

/-- `minY` of `normalizePolyCube`. -/
def minYof (p : PolyCube) : Nat := (blocksOf p).foldl (fun m b => min m b.2.1) gridSize

/-- `minZ` of `normalizePolyCube`. -/
def minZof (p : PolyCube) : Nat := (blocksOf p).foldl (fun m b => min m b.2.2) gridSize

/-- Insert each listed voxel into a fresh zero cube (the `blocks.forEach` loop). -/
def buildCube (l : List (Nat × Nat × Nat)) : PolyCube :=
  l.foldl (fun acc b => set3 acc b.1 b.2.1 b.2.2) zeroCube

/-- The per-block shift `(x - minX, y - minY, z - minZ)` of `normalizePolyCube`. -/
def normShift (p : PolyCube) (b : Nat × Nat × Nat) : Nat × Nat × Nat :=
  (b.1 - minXof p, b.2.1 - minYof p, b.2.2 - minZof p)

/-- `normalizePolyCube` from shapeGenerator: collect occupied voxels, compute
per-axis minima, and re-insert each voxel shifted by the minima into a fresh
GRID_SIZE³ zero cube. -/
def normalizePolyCube (p : PolyCube) : PolyCube :=
  buildCube ((blocksOf p).map (normShift p))

structure Dim2 where
  width : Nat
  height : Nat
deriving DecidableEq

/-- Result record of `normalize2DGrid` (`{ normalizedGrid, dimensions }`). -/
structure Norm2Result where
  normalizedGrid : Grid2
  dimensions : Dim2
deriving DecidableEq

/-- `minR` of `normalize2DGrid`, seeded with GRID_SIZE. -/
def minRof (g : Grid2) : Nat := (filled2 g).foldl (fun m rc => min m rc.1) gridSize

/-- `maxR` of `normalize2DGrid`. The source seeds the running maximum with -1;
on the non-empty path (the only one where it is read) this equals seeding
with 0 because every row index is a natural number. -/
def maxRof (g : Grid2) : Nat := (filled2 g).foldl (fun m rc => max m rc.1) 0

/-- `minC` of `normalize2DGrid`, seeded with GRID_SIZE. -/
def minCof (g : Grid2) : Nat := (filled2 g).foldl (fun m rc => min m rc.2) gridSize

/-- `maxC` of `normalize2DGrid` (seeding as in `maxRof`). -/
def maxCof (g : Grid2) : Nat := (filled2 g).foldl (fun m rc => max m rc.2) 0

/-- `normalize2DGrid` from the tutoring service: shift the filled cells so the
top-leftmost one sits at (0,0) of a tight `height × width` grid. -/
def normalize2DGrid (g : Grid2) : Norm2Result :=
  if filled2 g = [] then ⟨[], ⟨0, 0⟩⟩
  else
    let w := maxCof g - minCof g + 1
    let h := maxRof g - minRof g + 1
    ⟨(filled2 g).foldl
        (fun acc rc => set2 acc (rc.1 - minRof g) (rc.2 - minCof g) 1)
        (emptyGrid h w),
      ⟨w, h⟩⟩

/-- The bounding-box dimensions computed by `calculateDimensions`. The source
stores plain JS numbers; `Int` captures the -1 sentinel of the running maxima. -/
structure Dimensions where
  width : Int
  height : Int
  depth : Int
deriving DecidableEq

/-- Running minimum over occupied x of `calculateDimensions`, seeded GRID_SIZE. -/
def minXI (p : PolyCube) : Int := (blocksOf p).foldl (fun m b => min m (b.1 : Int)) (gridSize : Int)

/-- Running maximum over occupied x of `calculateDimensions`, seeded -1. -/
def maxXI (p : PolyCube) : Int := (blocksOf p).foldl (fun m b => max m (b.1 : Int)) (-1)

def minYI (p : PolyCube) : Int := (blocksOf p).foldl (fun m b => min m (b.2.1 : Int)) (gridSize : Int)

def maxYI (p : PolyCube) : Int := (blocksOf p).foldl (fun m b => max m (b.2.1 : Int)) (-1)

def minZI (p : PolyCube) : Int := (blocksOf p).foldl (fun m b => min m (b.2.2 : Int)) (gridSize : Int)

def maxZI (p : PolyCube) : Int := (blocksOf p).foldl (fun m b => max m (b.2.2 : Int)) (-1)

/-- `calculateDimensions` from projectionCalculator: tight bounding-box extents
(max - min + 1 per axis), or all zeros when no voxel is occupied (detected by
the x-maximum still being its -1 seed). -/
def calculateDimensions (p : PolyCube) : Dimensions :=
  if maxXI p = -1 then ⟨0, 0, 0⟩
  else ⟨maxXI p - minXI p + 1, maxYI p - minYI p + 1, maxZI p - minZI p + 1⟩

/-- Difficulty levels from types.ts. -/
inductive Level where
  | level1
  | level2
  | level3
deriving DecidableEq

/-- One inclusive block-count range of BLOCK_COUNTS_BY_LEVEL. -/
structure LevelRange where
  min : Nat
  max : Nat
deriving DecidableEq

/-- BLOCK_COUNTS_BY_LEVEL from constants.ts. -/
def blockCountsByLevel : Level → LevelRange
  | .level1 => ⟨4, 7⟩
  | .level2 => ⟨7, 10⟩
  | .level3 => ⟨10, 15⟩

/-- A derandomized stream standing in for successive `Math.random()` calls. -/
abbrev RandSrc := List Nat

/-- One draw `Math.floor(Math.random() * k)`: a value in `[0, k)` (for `k ≥ 1`)
plus the rest of the stream. -/
def draw (rs : RandSrc) (k : Nat) : Nat × RandSrc := (rs.headD 0 % k, rs.tail)

/-- Generation-time block coordinates; `Int` because the neighbor offsets can
step to -1 before the bounds check rejects them, as in the JS arithmetic. -/
abbrev ICoord := Int × Int × Int

/-- Componentwise coordinate + offset (`x + dx`, `y + dy`, `z + dz`). -/
def addC (a d : ICoord) : ICoord := (a.1 + d.1, a.2.1 + d.2.1, a.2.2 + d.2.2)

/-- The `neighbors` offset table of `generateContiguousShape`, in source order. -/
def neighborDeltas : List ICoord :=
  [(1, 0, 0), (-1, 0, 0), (0, 1, 0), (0, -1, 0), (0, 0, 1), (0, 0, -1)]

/-- The bounds check `0 ≤ n < GRID_SIZE` on each axis of a candidate point. -/
def inBoundsB (c : ICoord) : Bool :=
  decide (0 ≤ c.1) && decide (c.1 < gridSize) &&
  decide (0 ≤ c.2.1) && decide (c.2.1 < gridSize) &&
  decide (0 ≤ c.2.2) && decide (c.2.2 < gridSize)

/-- Candidate collection for one existing block: append each in-bounds neighbor
that is neither already placed nor already queued this step. -/
def candStep (placed : List ICoord) (acc : List ICoord) (b : ICoord) : List ICoord :=
  neighborDeltas.foldl
    (fun acc2 d =>
      let n := addC b d
      if inBoundsB n ∧ n ∉ placed ∧ n ∉ acc2 then acc2 ++ [n] else acc2)
    acc

/-- `potentialPoints` of one growth step: deduplicated in-bounds unplaced
neighbors of all existing blocks, in enumeration order. -/
def potentialPoints (bs : List ICoord) : List ICoord := bs.foldl (candStep bs) []

/-- The y component a candidate is sorted on. -/
def yOf (c : ICoord) : Int := c.2.1

/-- Stable insertion of a candidate into a list already sorted descending on y:
it goes after every earlier candidate with strictly larger y and before the
first one with y ≤ its own, exactly where the stable JS sort keeps it. -/
def insertByY (a : ICoord) : List ICoord → List ICoord
  | [] => [a]
  | b :: t => if yOf a < yOf b then b :: insertByY a t else a :: b :: t

/-- The stable sort `potentialPoints.sort((a, b) => b.y - a.y)`. -/
def sortByYDesc : List ICoord → List ICoord
  | [] => []
  | a :: t => insertByY a (sortByYDesc t)

/-- One iteration of the growth loop: collect candidates (stop if none), sort
them descending on y, and pick `potentialPoints[floor(random * min(len, 5))]`. -/
def growStep (bs : List ICoord) (rs : RandSrc) : Option (List ICoord × RandSrc) :=
  let pp := potentialPoints bs
  if pp = [] then none
  else
    let d := draw rs (min pp.length 5)
    some (bs ++ [(sortByYDesc pp).getD d.1 (0, 0, 0)], d.2)

/-- The growth loop `for (count = 1; count < targetBlocks; count++)`, run for
`steps = targetBlocks - 1` iterations unless candidates run out. -/
def growLoop : Nat → List ICoord → RandSrc → List ICoord × RandSrc
  | 0, bs, rs => (bs, rs)
  | steps + 1, bs, rs =>
    match growStep bs rs with
    | none => (bs, rs)
    | some (bs2, rs2) => growLoop steps bs2 rs2

/-- Cast an in-bounds generation coordinate to grid indices. -/
def toNatC (c : ICoord) : Nat × Nat × Nat := (c.1.toNat, c.2.1.toNat, c.2.2.toNat)

/-- The post-growth half of one attempt of `generateContiguousShape`: reject
if fewer than `min` blocks were placed, then normalize, measure, and reject
shapes that exceed the grid or are empty (`width > GRID_SIZE ∨ … ∨ width = 0`). -/
def finishAttempt (lvl : Level) (grown : List ICoord × RandSrc) :
    Option PolyCube × RandSrc :=
  if grown.1.length < (blockCountsByLevel lvl).min then (none, grown.2)
  else
    let normalized := normalizePolyCube (buildCube (grown.1.map toNatC))
    let dims := calculateDimensions normalized
    if (gridSize : Int) < dims.width ∨ (gridSize : Int) < dims.height ∨
        (gridSize : Int) < dims.depth ∨ dims.width = 0 then (none, grown.2)
    else (some normalized, grown.2)

/-- One attempt of `generateContiguousShape`: seed a voxel at a random x, z in
the lower half of the grid and y = 0, grow toward the target count, then apply
the rejection and normalization checks of `finishAttempt`. Returns the result
(if any) and the consumed random stream. -/
def runAttempt (lvl : Level) (target : Nat) (rs : RandSrc) : Option PolyCube × RandSrc :=
  let sx := (draw rs (gridSize / 2)).1
  let rs1 := (draw rs (gridSize / 2)).2
  let sz := (draw rs1 (gridSize / 2)).1
  let rs2 := (draw rs1 (gridSize / 2)).2
  finishAttempt lvl (growLoop (target - 1) [((sx : Int), 0, (sz : Int))] rs2)

/-- The retry loop `while (attempts < MAX_REGEN_ATTEMPTS)` with the target
block count fixed across attempts, as in the source (the `targetBlocks`
constant is computed before the loop). -/
def genLoop (lvl : Level) (target : Nat) : Nat → RandSrc → Option PolyCube
  | 0, _ => none
  | fuel + 1, rs =>
    match runAttempt lvl target rs with
    | (some pc, _) => some pc
    | (none, rs2) => genLoop lvl target fuel rs2

/-- `generateContiguousShape` from shapeGenerator: draw the target block count
`floor(random * (max - min + 1)) + min` once, then run up to
MAX_REGEN_ATTEMPTS attempts; `none` models the `null` of exhaustion. -/
def generateContiguousShape (lvl : Level) (rs : RandSrc) : Option PolyCube :=
  let r := blockCountsByLevel lvl
  let d := draw rs (r.max - r.min + 1)
  genLoop lvl (d.1 + r.min) maxRegenAttempts d.2

/-- Modelled from the spec (§4.1, step 1 of the per-attempt algorithm): the
same generator but with the target block count re-drawn uniformly in
`[min, max]` at the start of every attempt instead of once per invocation. -/
def genLoopRepick (lvl : Level) : Nat → RandSrc → Option PolyCube
  | 0, _ => none
  | fuel + 1, rs =>
    let r := blockCountsByLevel lvl
    let d := draw rs (r.max - r.min + 1)
    match runAttempt lvl (d.1 + r.min) d.2 with
    | (some pc, _) => some pc
    | (none, rs2) => genLoopRepick lvl fuel rs2

/-- Modelled from the spec: entry point of the per-attempt re-picking variant. -/
def generateShapeRepick (lvl : Level) (rs : RandSrc) : Option PolyCube :=
  genLoopRepick lvl maxRegenAttempts rs

/-- Orthographic view names from types.ts. -/
inductive ViewType where
  | front
  | top
  | side
deriving DecidableEq

/-- Centering offsets of one orthographic view. -/
structure ViewOffsets where
  x : Int
  y : Int
deriving DecidableEq

/-- The `OrthographicViews` record returned by `calculateOrthographicProjections`
(the optional offsets are always populated by that function). -/
structure OrthographicViews where
  front : Grid2
  top : Grid2
  side : Grid2
  frontOffsets : ViewOffsets
  topOffsets : ViewOffsets
  sideOffsets : ViewOffsets
deriving DecidableEq

/-- The forward projection formula of `calculateOrthographicProjections` for a
voxel `(x, y, z)`: the `(row, col)` canvas cell it marks in the given view,
before the in-range guard.
Front: row = G - 1 - (y + offY), col = x + offX.
Top:   row = x + offY,            col = z + offX.
Side:  row = G - 1 - (y + offY), col = z + offX. -/
def forwardCell (v : ViewType) (off : ViewOffsets) (b : Nat × Nat × Nat) : Int × Int :=
  match v with
  | .front => ((gridSize : Int) - 1 - ((b.2.1 : Int) + off.y), (b.1 : Int) + off.x)
  | .top => ((b.1 : Int) + off.y, (b.2.2 : Int) + off.x)
  | .side => ((gridSize : Int) - 1 - ((b.2.1 : Int) + off.y), (b.2.2 : Int) + off.x)

/-- Guarded cell marking: `if (row >= 0 && row < G && col >= 0 && col < G)
then grid[row][col] = 1`. -/
def markCell (g : Grid2) (r c : Int) : Grid2 :=
  if 0 ≤ r ∧ r < (gridSize : Int) ∧ 0 ≤ c ∧ c < (gridSize : Int) then
    set2 g r.toNat c.toNat 1
  else g

/-- The three per-view centering offsets `Math.floor((G - extent) / 2)`;
`Int.fdiv` is JS `Math.floor` division on possibly negative numbers. -/
def centerOffsets (dims : Dimensions) : ViewOffsets × ViewOffsets × ViewOffsets :=
  (⟨Int.fdiv ((gridSize : Int) - dims.width) 2, Int.fdiv ((gridSize : Int) - dims.height) 2⟩,
   ⟨Int.fdiv ((gridSize : Int) - dims.depth) 2, Int.fdiv ((gridSize : Int) - dims.width) 2⟩,
   ⟨Int.fdiv ((gridSize : Int) - dims.depth) 2, Int.fdiv ((gridSize : Int) - dims.height) 2⟩)

/-- `calculateOrthographicProjections` from projectionCalculator: return three
empty G×G grids with zero offsets when any dimension is 0; otherwise mark, for
every occupied voxel, its guarded forward-projected cell in each view. -/
def calculateOrthographicProjections (p : PolyCube) (dims : Dimensions) : OrthographicViews :=
  if dims.width = 0 ∨ dims.height = 0 ∨ dims.depth = 0 then
    ⟨emptyGrid gridSize gridSize, emptyGrid gridSize gridSize, emptyGrid gridSize gridSize,
      ⟨0, 0⟩, ⟨0, 0⟩, ⟨0, 0⟩⟩
  else
    let off := centerOffsets dims
    let views := (blocksOf p).foldl
      (fun st b =>
        (markCell st.1 (forwardCell .front off.1 b).1 (forwardCell .front off.1 b).2,
         markCell st.2.1 (forwardCell .top off.2.1 b).1 (forwardCell .top off.2.1 b).2,
         markCell st.2.2 (forwardCell .side off.2.2 b).1 (forwardCell .side off.2.2 b).2))
      (emptyGrid gridSize gridSize, emptyGrid gridSize gridSize, emptyGrid gridSize gridSize)
    ⟨views.1, views.2.1, views.2.2, off.1, off.2.1, off.2.2⟩

/-- Project one view grid out of the result record. -/
def viewGrid (v : ViewType) (ov : OrthographicViews) : Grid2 :=
  match v with
  | .front => ov.front
  | .top => ov.top
  | .side => ov.side

/-- Project one view's offsets out of the result record. -/
def viewOff (v : ViewType) (ov : OrthographicViews) : ViewOffsets :=
  match v with
  | .front => ov.frontOffsets
  | .top => ov.topOffsets
  | .side => ov.sideOffsets

/-- `find3DBlocksFor2DCell` from projectionCalculator: scan the whole grid and
collect every occupied voxel whose coordinates invert the view's forward
mapping for the queried cell. The `dims` argument is destructured but unused
by the source (as are its `relativeRow`/`relativeCol` locals). -/
def find3DBlocksFor2DCell (p : PolyCube) (v : ViewType) (row col : Int)
    (off : ViewOffsets) (dims : Dimensions) : List (Nat × Nat × Nat) :=
  (blocksOf p).filter fun b =>
    match v with
    | .front =>
      ((b.1 : Int) == col - off.x) && ((b.2.1 : Int) == (gridSize : Int) - 1 - row - off.y)
    | .top =>
      ((b.1 : Int) == row - off.y) && ((b.2.2 : Int) == col - off.x)
    | .side =>
      ((b.2.2 : Int) == col - off.x) && ((b.2.1 : Int) == (gridSize : Int) - 1 - row - off.y)

/-- A face of the unit cube: corner indices plus its outward local normal. -/
structure FaceDefinition where
  corners : List Nat
  normal : Int × Int × Int
deriving DecidableEq

/-- The 8 corners of the unit cube, in source order. -/
def UNIT_CUBE_CORNERS : List (Nat × Nat × Nat) :=
  [(0, 0, 0), (1, 0, 0), (0, 1, 0), (0, 0, 1), (1, 1, 0), (1, 0, 1), (0, 1, 1), (1, 1, 1)]

/-- Top face (y = 1 plane, normal up). -/
def faceTop : FaceDefinition := ⟨[2, 4, 7, 6], (0, 1, 0)⟩

/-- Bottom face (y = 0 plane, normal down). -/
def faceBottom : FaceDefinition := ⟨[0, 3, 5, 1], (0, -1, 0)⟩

/-- Front face (z = 1 plane, normal forward). -/
def faceFront : FaceDefinition := ⟨[3, 6, 7, 5], (0, 0, 1)⟩

/-- Back face (z = 0 plane, normal backward). -/
def faceBack : FaceDefinition := ⟨[0, 1, 4, 2], (0, 0, -1)⟩

/-- Right face (x = 1 plane, normal right). -/
def faceRight : FaceDefinition := ⟨[1, 5, 7, 4], (1, 0, 0)⟩

/-- Left face (x = 0 plane, normal left). -/
def faceLeft : FaceDefinition := ⟨[0, 2, 6, 3], (-1, 0, 0)⟩

/-- UNIT_CUBE_FACES in source order. -/
def UNIT_CUBE_FACES : List FaceDefinition :=
  [faceTop, faceBottom, faceFront, faceBack, faceRight, faceLeft]

/-- Bounds-defaulted voxel read at possibly negative indices (a negative JS
index reads `undefined`, which fails the `=== 1` test like an empty cell). -/
def cell3I (p : PolyCube) (x y z : Int) : Nat :=
  if 0 ≤ x ∧ 0 ≤ y ∧ 0 ≤ z then cell3 p x.toNat y.toNat z.toNat else 0

/-- The occlusion test of `drawIsometricBlockFaces`: a face is naturally
exposed when the unrotated neighbor cell in the direction of its local normal
is out of grid bounds or not occupied. -/
def isNaturallyExposed (p : PolyCube) (x y z : Nat) (f : FaceDefinition) : Bool :=
  let nx := (x : Int) + f.normal.1
  let ny := (y : Int) + f.normal.2.1
  let nz := (z : Int) + f.normal.2.2
  decide (nx < 0) || decide ((gridSize : Int) ≤ nx) ||
  decide (ny < 0) || decide ((gridSize : Int) ≤ ny) ||
  decide (nz < 0) || decide ((gridSize : Int) ≤ nz) ||
  (cell3I p nx ny nz != 1)

/-- `applyRotation`: yaw about the y axis (mixing x and z), then pitch about
the x axis (mixing y and the yawed z). -/
noncomputable def applyRotation (x y z rotX rotY : ℝ) : ℝ × ℝ × ℝ :=
  let cosY := Real.cos rotY
  let sinY := Real.sin rotY
  let x1 := x * cosY + z * sinY
  let z1 := -x * sinY + z * cosY
  let cosX := Real.cos rotX
  let sinX := Real.sin rotX
  (x1, y * cosX - z1 * sinX, y * sinX + z1 * cosX)

/-- `rotateVector` is `applyRotation` applied to a direction vector. -/
noncomputable def rotateVector (vx vy vz rotX rotY : ℝ) : ℝ × ℝ × ℝ :=
  applyRotation vx vy vz rotX rotY

/-- VIEW_DIRECTION_VECTOR from constants.ts. -/
noncomputable def viewDirectionVector : ℝ × ℝ × ℝ := (0.5, 0.5, 0.5)

/-- The camera-facing dot product of a face's rotated local normal with the
fixed view direction. -/
noncomputable def faceDotView (f : FaceDefinition) (rotX rotY : ℝ) : ℝ :=
  let rn := rotateVector (f.normal.1 : ℝ) (f.normal.2.1 : ℝ) (f.normal.2.2 : ℝ) rotX rotY
  rn.1 * viewDirectionVector.1 + rn.2.1 * viewDirectionVector.2.1 +
    rn.2.2 * viewDirectionVector.2.2

/-- A face of the voxel at (x, y, z) is drawn by `drawIsometricBlockFaces` iff
it survives the occlusion test on the unrotated neighbor and its rotated
normal faces the camera (`dotProduct > 0`). -/
def faceEmitted (p : PolyCube) (x y z : Nat) (f : FaceDefinition) (rotX rotY : ℝ) : Prop :=
  isNaturallyExposed p x y z f = true ∧ 0 < faceDotView f rotX rotY

/-- 6-adjacency of grid voxels: the coordinates differ by exactly 1 along
exactly one axis. -/
def adjN (a b : Nat × Nat × Nat) : Prop :=
  (a.2.1 = b.2.1 ∧ a.2.2 = b.2.2 ∧ (a.1 + 1 = b.1 ∨ b.1 + 1 = a.1)) ∨
  (a.1 = b.1 ∧ a.2.2 = b.2.2 ∧ (a.2.1 + 1 = b.2.1 ∨ b.2.1 + 1 = a.2.1)) ∨
  (a.1 = b.1 ∧ a.2.1 = b.2.1 ∧ (a.2.2 + 1 = b.2.2 ∨ b.2.2 + 1 = a.2.2))

/-- One step of a path through occupied voxels: move to an occupied 6-neighbor. -/
def occStep (p : PolyCube) (a b : Nat × Nat × Nat) : Prop :=
  cell3 p b.1 b.2.1 b.2.2 = 1 ∧ adjN a b

/-- 6-connectivity of a polyCube: any two occupied voxels are joined by a path
of occupied voxels whose consecutive members are 6-adjacent. -/
def SixConnected (p : PolyCube) : Prop :=
  ∀ a ∈ blocksOf p, ∀ b ∈ blocksOf p, Relation.ReflTransGen (occStep p) a b

/-- 6-adjacency of generation-time (integer) coordinates. -/
def adjI (a b : ICoord) : Prop :=
  (a.2.1 = b.2.1 ∧ a.2.2 = b.2.2 ∧ (a.1 + 1 = b.1 ∨ b.1 + 1 = a.1)) ∨
  (a.1 = b.1 ∧ a.2.2 = b.2.2 ∧ (a.2.1 + 1 = b.2.1 ∨ b.2.1 + 1 = a.2.1)) ∨
  (a.1 = b.1 ∧ a.2.1 = b.2.1 ∧ (a.2.2 + 1 = b.2.2 ∨ b.2.2 + 1 = a.2.2))

/-- Pairwise reachability inside a placed-blocks list through adjacent members. -/
def ConnI (bs : List ICoord) : Prop :=
  ∀ a ∈ bs, ∀ b ∈ bs,
    Relation.ReflTransGen (fun u v => u ∈ bs ∧ v ∈ bs ∧ adjI u v) a b

/-- The invariant the growth loop maintains on `existingBlocks`: non-empty,
in bounds, duplicate-free, and internally connected. -/
def GrowInv (bs : List ICoord) : Prop :=
  bs ≠ [] ∧ (∀ c ∈ bs, inBoundsB c = true) ∧ bs.Nodup ∧ ConnI bs

/-- Fifteen distinct in-bounds cells, used to bound the size of any
neighbor-closed set of placed blocks. -/
def probeCells : List ICoord :=
  [(0, 0, 0), (0, 0, 1), (0, 0, 2), (0, 0, 3), (0, 0, 4), (0, 0, 5), (0, 0, 6), (0, 0, 7),
   (0, 1, 0), (0, 1, 1), (0, 1, 2), (0, 1, 3), (0, 1, 4), (0, 1, 5), (0, 1, 6)]

/-- Shape of a 2D grid value: `hh` rows of `w` entries each. -/
def gridShape (g : Grid2) (hh w : Nat) : Prop :=
  g.length = hh ∧ ∀ r ∈ g, r.length = w

/-- Shape of a polyCube value: GRID_SIZE planes of GRID_SIZE × GRID_SIZE. -/
def cubeShape (p : PolyCube) : Prop :=
  p.length = gridSize ∧ ∀ pl ∈ p, pl.length = gridSize ∧ ∀ r ∈ pl, r.length = gridSize

theorem getD_eq_default_of_le {α : Type} (l : List α) (d : α) {i : Nat}
    (h : l.length ≤ i) : l.getD i d = d := by
  rw [List.getD_eq_getElem?_getD, List.getElem?_eq_none h]
  rfl

theorem getD_mem_of_lt {α : Type} (l : List α) (i : Nat) (d : α) (h : i < l.length) :
    l.getD i d ∈ l := by
  rw [List.getD_eq_getElem l d h]
  exact List.getElem_mem h

theorem getD_set {α : Type} (l : List α) (i j : Nat) (v d : α) :
    (l.set i v).getD j d = if i = j ∧ j < l.length then v else l.getD j d := by
  rcases Nat.lt_or_ge j l.length with h | h
  · have h2 : j < (l.set i v).length := by simpa using h
    rw [List.getD_eq_getElem _ _ h2, List.getD_eq_getElem _ _ h, List.getElem_set]
    by_cases hij : i = j <;> simp [hij, h]
  · have h2 : (l.set i v).length ≤ j := by simpa using h
    rw [getD_eq_default_of_le _ _ h2, getD_eq_default_of_le _ _ h]
    simp [Nat.not_lt.mpr h]

theorem getD_all_zero (l : List Nat) (c : Nat) (h : ∀ m ∈ l, m = 0) :
    l.getD c 0 = 0 := by
  rcases Nat.lt_or_ge c l.length with hlt | hge
  · exact h _ (getD_mem_of_lt l c 0 hlt)
  · exact getD_eq_default_of_le l 0 hge

theorem gridShape_emptyGrid (hh w : Nat) : gridShape (emptyGrid hh w) hh w := by
  refine ⟨by simp [emptyGrid], ?_⟩
  intro r hr
  rw [List.eq_of_mem_replicate hr]
  simp

theorem cell2_emptyGrid (hh w r c : Nat) : cell2 (emptyGrid hh w) r c = 0 := by
  unfold cell2 emptyGrid
  apply getD_all_zero
  intro m hm
  rcases Nat.lt_or_ge r hh with hlt | hge
  · rw [List.getD_eq_getElem (List.replicate hh (List.replicate w 0)) []
      (by simpa using hlt)] at hm
    simp only [List.getElem_replicate] at hm
    exact List.eq_of_mem_replicate hm
  · rw [getD_eq_default_of_le _ _ (by simpa using hge)] at hm
    cases hm

theorem cubeShape_zeroCube : cubeShape zeroCube := by
  refine ⟨by simp [zeroCube], ?_⟩
  intro pl hpl
  rw [List.eq_of_mem_replicate hpl]
  refine ⟨by simp, ?_⟩
  intro r hr
  rw [List.eq_of_mem_replicate hr]
  simp

theorem cell3_zeroCube (x y z : Nat) : cell3 zeroCube x y z = 0 := by
  unfold cell3 zeroCube
  apply getD_all_zero
  intro m hm
  rcases Nat.lt_or_ge x gridSize with hx | hx
  · rw [List.getD_eq_getElem (List.replicate gridSize (List.replicate gridSize
      (List.replicate gridSize 0))) [] (by simpa using hx)] at hm
    simp only [List.getElem_replicate] at hm
    rcases Nat.lt_or_ge y gridSize with hy | hy
    · rw [List.getD_eq_getElem (List.replicate gridSize (List.replicate gridSize 0)) []
        (by simpa using hy)] at hm
      simp only [List.getElem_replicate] at hm
      exact List.eq_of_mem_replicate hm
    · rw [getD_eq_default_of_le _ _ (by simpa using hy)] at hm
      cases hm
  · rw [getD_eq_default_of_le (List.replicate gridSize (List.replicate gridSize
      (List.replicate gridSize 0))) [] (by simpa using hx)] at hm
    rw [getD_eq_default_of_le ([] : List (List Nat)) [] (Nat.zero_le y)] at hm
    cases hm

theorem gridShape_set2 {g : Grid2} {hh w : Nat} (hg : gridShape g hh w) (r c v : Nat) :
    gridShape (set2 g r c v) hh w := by
  obtain ⟨hl, hrows⟩ := hg
  rcases Nat.lt_or_ge r g.length with hlt | hge
  · refine ⟨by simp [set2, hl], ?_⟩
    intro row hrow
    rcases List.mem_or_eq_of_mem_set hrow with h | h
    · exact hrows _ h
    · subst h
      rw [List.length_set]
      exact hrows _ (getD_mem_of_lt _ _ _ hlt)
  · rw [set2, List.set_eq_of_length_le hge]
    exact ⟨hl, hrows⟩

theorem cell2_set2 {g : Grid2} {hh w : Nat} (hg : gridShape g hh w)
    (r c v r2 c2 : Nat) (hr : r < hh) (hc : c < w) :
    cell2 (set2 g r c v) r2 c2 = if r = r2 ∧ c = c2 then v else cell2 g r2 c2 := by
  have hrlen : r < g.length := hg.1 ▸ hr
  have hrowlen : (g.getD r []).length = w := hg.2 _ (getD_mem_of_lt _ _ _ hrlen)
  unfold cell2 set2
  rw [getD_set]
  by_cases h1 : r = r2
  · subst h1
    rw [if_pos ⟨rfl, hrlen⟩, getD_set]
    by_cases h2 : c = c2
    · subst h2
      rw [if_pos ⟨rfl, by omega⟩, if_pos ⟨rfl, rfl⟩]
    · rw [if_neg (by tauto), if_neg (by tauto)]
  · rw [if_neg (by tauto), if_neg (by tauto)]

theorem cell2_zero_of_col {g : Grid2} {hh w : Nat} (hg : gridShape g hh w)
    {c : Nat} (hc : w ≤ c) (r : Nat) : cell2 g r c = 0 := by
  unfold cell2
  apply getD_eq_default_of_le
  rcases Nat.lt_or_ge r g.length with hlt | hge
  · rw [hg.2 _ (getD_mem_of_lt g r [] hlt)]
    exact hc
  · rw [getD_eq_default_of_le g [] hge]
    exact Nat.zero_le c

theorem cell2_zero_of_row {g : Grid2} {hh w : Nat} (hg : gridShape g hh w)
    {r : Nat} (hr : hh ≤ r) (c : Nat) : cell2 g r c = 0 := by
  unfold cell2
  rw [getD_eq_default_of_le g [] (hg.1 ▸ hr)]
  exact getD_eq_default_of_le _ _ (Nat.zero_le c)

theorem cell3_eq_cell2 (p : PolyCube) (x y z : Nat) :
    cell3 p x y z = cell2 (p.getD x []) y z := rfl

theorem set3_eq (p : PolyCube) (x y z : Nat) :
    set3 p x y z = p.set x (set2 (p.getD x []) y z 1) := rfl

theorem cubeShape_set3 {p : PolyCube} (hp : cubeShape p) (x y z : Nat) :
    cubeShape (set3 p x y z) := by
  obtain ⟨hl, hplanes⟩ := hp
  rcases Nat.lt_or_ge x p.length with hlt | hge
  · refine ⟨by simp [set3_eq, hl], ?_⟩
    intro pl hpl
    rw [set3_eq] at hpl
    rcases List.mem_or_eq_of_mem_set hpl with h | h
    · exact hplanes _ h
    · subst h
      have hplane := hplanes _ (getD_mem_of_lt p x [] hlt)
      exact gridShape_set2 hplane y z 1
  · rw [set3_eq, List.set_eq_of_length_le hge]
    exact ⟨hl, hplanes⟩

theorem cell3_set3 {p : PolyCube} (hp : cubeShape p) (x y z x2 y2 z2 : Nat)
    (hx : x < gridSize) (hy : y < gridSize) (hz : z < gridSize) :
    cell3 (set3 p x y z) x2 y2 z2 =
      if x = x2 ∧ y = y2 ∧ z = z2 then 1 else cell3 p x2 y2 z2 := by
  have hxlen : x < p.length := hp.1 ▸ hx
  have hplane : gridShape (p.getD x []) gridSize gridSize :=
    hp.2 _ (getD_mem_of_lt p x [] hxlen)
  rw [set3_eq, cell3_eq_cell2, getD_set]
  by_cases h1 : x = x2
  · subst h1
    rw [if_pos ⟨rfl, hxlen⟩, cell2_set2 hplane y z 1 y2 z2 hy hz]
    by_cases h2 : y = y2 ∧ z = z2
    · rw [if_pos h2, if_pos ⟨rfl, h2.1, h2.2⟩]
    · rw [if_neg h2, if_neg (by tauto), cell3_eq_cell2]
  · rw [if_neg (by tauto), if_neg (by tauto), cell3_eq_cell2]

theorem gridShape_foldSet (L : List (Nat × Nat)) {g : Grid2} {hh w : Nat}
    (hg : gridShape g hh w) :
    gridShape (L.foldl (fun acc rc => set2 acc rc.1 rc.2 1) g) hh w := by
  induction L generalizing g with
  | nil => exact hg
  | cons rc t ih => exact ih (gridShape_set2 hg rc.1 rc.2 1)

theorem cell2_foldSet (L : List (Nat × Nat)) {g : Grid2} {hh w : Nat}
    (hg : gridShape g hh w) (hL : ∀ rc ∈ L, rc.1 < hh ∧ rc.2 < w) (r c : Nat) :
    cell2 (L.foldl (fun acc rc => set2 acc rc.1 rc.2 1) g) r c =
      if (r, c) ∈ L then 1 else cell2 g r c := by
  induction L generalizing g with
  | nil => simp
  | cons rc t ih =>
    have hrc := hL rc (by simp)
    rw [List.foldl_cons, ih (gridShape_set2 hg rc.1 rc.2 1)
      (fun b hb => hL b (List.mem_cons_of_mem _ hb))]
    by_cases hmem : (r, c) ∈ t
    · simp [hmem]
    · rw [if_neg hmem, cell2_set2 hg rc.1 rc.2 1 r c hrc.1 hrc.2]
      by_cases he : rc.1 = r ∧ rc.2 = c
      · have hrc2 : rc = (r, c) := Prod.ext he.1 he.2
        rw [if_pos he, if_pos (by rw [← hrc2]; exact List.mem_cons_self rc t)]
      · rw [if_neg he, if_neg ?_]
        simp only [List.mem_cons, hmem, or_false]
        intro hcontr
        exact he ⟨by rw [← hcontr], by rw [← hcontr]⟩

theorem cubeShape_foldSet (L : List (Nat × Nat × Nat)) {q : PolyCube}
    (hq : cubeShape q) :
    cubeShape (L.foldl (fun acc b => set3 acc b.1 b.2.1 b.2.2) q) := by
  induction L generalizing q with
  | nil => exact hq
  | cons b t ih => exact ih (cubeShape_set3 hq b.1 b.2.1 b.2.2)

theorem cell3_foldSet (L : List (Nat × Nat × Nat)) {q : PolyCube} (hq : cubeShape q)
    (hL : ∀ b ∈ L, b.1 < gridSize ∧ b.2.1 < gridSize ∧ b.2.2 < gridSize) (x y z : Nat) :
    cell3 (L.foldl (fun acc b => set3 acc b.1 b.2.1 b.2.2) q) x y z =
      if (x, y, z) ∈ L then 1 else cell3 q x y z := by
  induction L generalizing q with
  | nil => simp
  | cons b t ih =>
    have hb := hL b (by simp)
    rw [List.foldl_cons, ih (cubeShape_set3 hq b.1 b.2.1 b.2.2)
      (fun b2 hb2 => hL b2 (List.mem_cons_of_mem _ hb2))]
    by_cases hmem : (x, y, z) ∈ t
    · simp [hmem]
    · rw [if_neg hmem, cell3_set3 hq b.1 b.2.1 b.2.2 x y z hb.1 hb.2.1 hb.2.2]
      by_cases he : b.1 = x ∧ b.2.1 = y ∧ b.2.2 = z
      · have hb2 : b = (x, y, z) := Prod.ext he.1 (Prod.ext he.2.1 he.2.2)
        rw [if_pos he, if_pos (by rw [← hb2]; exact List.mem_cons_self b t)]
      · rw [if_neg he, if_neg ?_]
        simp only [List.mem_cons, hmem, or_false]
        intro hcontr
        exact he ⟨by rw [← hcontr], by rw [← hcontr], by rw [← hcontr]⟩

theorem mem_cellList2 (rc : Nat × Nat) :
    rc ∈ cellList2 ↔ rc.1 < gridSize ∧ rc.2 < gridSize := by
  obtain ⟨r, c⟩ := rc
  simp only [cellList2, List.mem_flatMap, List.mem_map, List.mem_range]
  constructor
  · rintro ⟨a, ha, b, hb, heq⟩
    simp only [Prod.mk.injEq] at heq
    obtain ⟨rfl, rfl⟩ := heq
    exact ⟨ha, hb⟩
  · rintro ⟨hr, hc⟩
    exact ⟨r, hr, c, hc, rfl⟩

theorem mem_cellList3 (b : Nat × Nat × Nat) :
    b ∈ cellList3 ↔ b.1 < gridSize ∧ b.2.1 < gridSize ∧ b.2.2 < gridSize := by
  obtain ⟨x, y, z⟩ := b
  simp only [cellList3, List.mem_flatMap, List.mem_map, List.mem_range]
  constructor
  · rintro ⟨a, ha, b2, hb2, c, hc, heq⟩
    simp only [Prod.mk.injEq] at heq
    obtain ⟨rfl, rfl, rfl⟩ := heq
    exact ⟨ha, hb2, hc⟩
  · rintro ⟨hx, hy, hz⟩
    exact ⟨x, hx, y, hy, z, hz, rfl⟩

theorem nodup_cellList2 : cellList2.Nodup := by decide

theorem nodup_cellList3 : cellList3.Nodup := by
  rw [cellList3, List.nodup_flatMap]
  constructor
  · intro x _
    rw [List.nodup_flatMap]
    constructor
    · intro y _
      refine List.Nodup.map ?_ (List.nodup_range gridSize)
      intro a b hab
      simpa using hab
    · refine List.Pairwise.imp ?_ (List.nodup_range gridSize)
      intro y1 y2 hne b hb1 hb2
      simp only [List.mem_map, List.mem_range] at hb1 hb2
      obtain ⟨z1, hz1, rfl⟩ := hb1
      obtain ⟨z2, hz2, heq⟩ := hb2
      simp only [Prod.mk.injEq] at heq
      exact hne heq.2.1.symm
  · refine List.Pairwise.imp ?_ (List.nodup_range gridSize)
    intro x1 x2 hne b hb1 hb2
    simp only [List.mem_flatMap, List.mem_map, List.mem_range] at hb1 hb2
    obtain ⟨y1, hy1, z1, hz1, rfl⟩ := hb1
    obtain ⟨y2, hy2, z2, hz2, heq⟩ := hb2
    simp only [Prod.mk.injEq] at heq
    exact hne heq.1.symm

theorem mem_filled2 (g : Grid2) (rc : Nat × Nat) :
    rc ∈ filled2 g ↔
      (rc.1 < gridSize ∧ rc.2 < gridSize) ∧ cell2 g rc.1 rc.2 = 1 := by
  rw [filled2, List.mem_filter, mem_cellList2]
  simp

theorem mem_blocksOf (p : PolyCube) (b : Nat × Nat × Nat) :
    b ∈ blocksOf p ↔
      (b.1 < gridSize ∧ b.2.1 < gridSize ∧ b.2.2 < gridSize) ∧
        cell3 p b.1 b.2.1 b.2.2 = 1 := by
  rw [blocksOf, List.mem_filter, mem_cellList3]
  simp

theorem nodup_filled2 (g : Grid2) : (filled2 g).Nodup := nodup_cellList2.filter _

theorem nodup_blocksOf (p : PolyCube) : (blocksOf p).Nodup := nodup_cellList3.filter _

theorem foldl_min_le_init {α β : Type} [LinearOrder α] (l : List β) (f : β → α) (a : α) :
    l.foldl (fun m x => min m (f x)) a ≤ a := by
  induction l generalizing a with
  | nil => exact le_refl a
  | cons b t ih => exact le_trans (ih (min a (f b))) (min_le_left _ _)

theorem foldl_min_le_mem {α β : Type} [LinearOrder α] (l : List β) (f : β → α) (a : α)
    (x : β) : x ∈ l → l.foldl (fun m y => min m (f y)) a ≤ f x := by
  induction l generalizing a with
  | nil => intro hx; cases hx
  | cons b t ih =>
    intro hx
    rw [List.foldl_cons]
    rcases List.mem_cons.mp hx with rfl | hxt
    · exact le_trans (foldl_min_le_init t f _) (min_le_right _ _)
    · exact ih _ hxt

theorem le_foldl_min {α β : Type} [LinearOrder α] (l : List β) (f : β → α) (a c : α)
    (ha : c ≤ a) (hl : ∀ x ∈ l, c ≤ f x) :
    c ≤ l.foldl (fun m y => min m (f y)) a := by
  induction l generalizing a with
  | nil => exact ha
  | cons b t ih =>
    rw [List.foldl_cons]
    exact ih _ (le_min ha (hl b (by simp))) (fun x hx => hl x (by simp [hx]))

theorem foldl_min_attained {α β : Type} [LinearOrder α] (l : List β) (f : β → α) (a : α) :
    l.foldl (fun m y => min m (f y)) a = a ∨
      ∃ x ∈ l, l.foldl (fun m y => min m (f y)) a = f x := by
  induction l generalizing a with
  | nil => left; rfl
  | cons b t ih =>
    rw [List.foldl_cons]
    rcases ih (min a (f b)) with h | ⟨x, hx, h⟩
    · rcases min_choice a (f b) with h2 | h2
      · left; rw [h, h2]
      · right; exact ⟨b, by simp, by rw [h, h2]⟩
    · right; exact ⟨x, by simp [hx], h⟩

theorem le_foldl_max {α β : Type} [LinearOrder α] (l : List β) (f : β → α) (a : α) :
    a ≤ l.foldl (fun m x => max m (f x)) a := by
  induction l generalizing a with
  | nil => exact le_refl a
  | cons b t ih => exact le_trans (le_max_left _ _) (ih (max a (f b)))

theorem mem_le_foldl_max {α β : Type} [LinearOrder α] (l : List β) (f : β → α) (a : α)
    (x : β) : x ∈ l → f x ≤ l.foldl (fun m y => max m (f y)) a := by
  induction l generalizing a with
  | nil => intro hx; cases hx
  | cons b t ih =>
    intro hx
    rw [List.foldl_cons]
    rcases List.mem_cons.mp hx with rfl | hxt
    · exact le_trans (le_max_right _ _) (le_foldl_max t f _)
    · exact ih _ hxt

theorem foldl_max_le {α β : Type} [LinearOrder α] (l : List β) (f : β → α) (a c : α)
    (ha : a ≤ c) (hl : ∀ x ∈ l, f x ≤ c) :
    l.foldl (fun m y => max m (f y)) a ≤ c := by
  induction l generalizing a with
  | nil => exact ha
  | cons b t ih =>
    rw [List.foldl_cons]
    exact ih _ (max_le ha (hl b (by simp))) (fun x hx => hl x (by simp [hx]))

theorem foldl_max_attained {α β : Type} [LinearOrder α] (l : List β) (f : β → α) (a : α) :
    l.foldl (fun m y => max m (f y)) a = a ∨
      ∃ x ∈ l, l.foldl (fun m y => max m (f y)) a = f x := by
  induction l generalizing a with
  | nil => left; rfl
  | cons b t ih =>
    rw [List.foldl_cons]
    rcases ih (max a (f b)) with h | ⟨x, hx, h⟩
    · rcases max_choice a (f b) with h2 | h2
      · left; rw [h, h2]
      · right; exact ⟨b, by simp, by rw [h, h2]⟩
    · right; exact ⟨x, by simp [hx], h⟩

theorem grid_ext {g1 g2 : Grid2} {hh w : Nat}
    (h1 : gridShape g1 hh w) (h2 : gridShape g2 hh w)
    (hc : ∀ r c, r < hh → c < w → cell2 g1 r c = cell2 g2 r c) : g1 = g2 := by
  apply List.ext_getElem (by rw [h1.1, h2.1])
  intro r hr1 hr2
  apply List.ext_getElem
  · rw [h1.2 _ (List.getElem_mem hr1), h2.2 _ (List.getElem_mem hr2)]
  · intro c hc1 hc2
    have hrh : r < hh := h1.1 ▸ hr1
    have hcw : c < w := by
      have := h1.2 _ (List.getElem_mem hr1)
      omega
    have := hc r c hrh hcw
    unfold cell2 at this
    rw [List.getD_eq_getElem g1 [] hr1, List.getD_eq_getElem g2 [] hr2,
      List.getD_eq_getElem _ _ hc1, List.getD_eq_getElem _ _ hc2] at this
    exact this

theorem cube_ext {p1 p2 : PolyCube} (h1 : cubeShape p1) (h2 : cubeShape p2)
    (hc : ∀ x y z, x < gridSize → y < gridSize → z < gridSize →
      cell3 p1 x y z = cell3 p2 x y z) : p1 = p2 := by
  apply List.ext_getElem (by rw [h1.1, h2.1])
  intro x hx1 hx2
  have hxg : x < gridSize := h1.1 ▸ hx1
  have hs1 : gridShape p1[x] gridSize gridSize := h1.2 _ (List.getElem_mem hx1)
  have hs2 : gridShape p2[x] gridSize gridSize := h2.2 _ (List.getElem_mem hx2)
  apply grid_ext hs1 hs2
  intro y z hy hz
  have := hc x y z hxg hy hz
  rw [cell3_eq_cell2, cell3_eq_cell2, List.getD_eq_getElem p1 [] hx1,
    List.getD_eq_getElem p2 [] hx2] at this
  exact this

theorem cubeShape_buildCube (l : List (Nat × Nat × Nat)) : cubeShape (buildCube l) :=
  cubeShape_foldSet l cubeShape_zeroCube

theorem cell3_buildCube (l : List (Nat × Nat × Nat))
    (hl : ∀ b ∈ l, b.1 < gridSize ∧ b.2.1 < gridSize ∧ b.2.2 < gridSize) (x y z : Nat) :
    cell3 (buildCube l) x y z = if (x, y, z) ∈ l then 1 else 0 := by
  rw [buildCube, cell3_foldSet l cubeShape_zeroCube hl, cell3_zeroCube]

theorem normShift_lt (p : PolyCube) {b : Nat × Nat × Nat} (hb : b ∈ blocksOf p) :
    (normShift p b).1 < gridSize ∧ (normShift p b).2.1 < gridSize ∧
      (normShift p b).2.2 < gridSize := by
  have h := ((mem_blocksOf p b).mp hb).1
  refine ⟨?_, ?_, ?_⟩ <;> simp only [normShift] <;> omega

theorem cell3_normalize (p : PolyCube) (x y z : Nat) :
    cell3 (normalizePolyCube p) x y z =
      if (x, y, z) ∈ (blocksOf p).map (normShift p) then 1 else 0 := by
  rw [normalizePolyCube]
  refine cell3_buildCube _ ?_ x y z
  intro b hb
  obtain ⟨b0, hb0, rfl⟩ := List.mem_map.mp hb
  exact normShift_lt p hb0

theorem mem_blocksOf_normalize (p : PolyCube) (b : Nat × Nat × Nat) :
    b ∈ blocksOf (normalizePolyCube p) ↔ b ∈ (blocksOf p).map (normShift p) := by
  constructor
  · intro h
    have h1 := ((mem_blocksOf _ _).mp h).2
    rw [cell3_normalize] at h1
    by_cases hm : (b.1, b.2.1, b.2.2) ∈ (blocksOf p).map (normShift p)
    · exact hm
    · rw [if_neg hm] at h1
      omega
  · intro hm
    rw [mem_blocksOf]
    obtain ⟨b0, hb0, hb0eq⟩ := List.mem_map.mp hm
    refine ⟨?_, ?_⟩
    · rw [← hb0eq]
      exact normShift_lt p hb0
    · rw [cell3_normalize, if_pos hm]

theorem minXof_le_mem (p : PolyCube) {b : Nat × Nat × Nat} (hb : b ∈ blocksOf p) :
    minXof p ≤ b.1 :=
  foldl_min_le_mem (blocksOf p) (fun b => b.1) gridSize b hb

theorem minYof_le_mem (p : PolyCube) {b : Nat × Nat × Nat} (hb : b ∈ blocksOf p) :
    minYof p ≤ b.2.1 :=
  foldl_min_le_mem (blocksOf p) (fun b => b.2.1) gridSize b hb

theorem minZof_le_mem (p : PolyCube) {b : Nat × Nat × Nat} (hb : b ∈ blocksOf p) :
    minZof p ≤ b.2.2 :=
  foldl_min_le_mem (blocksOf p) (fun b => b.2.2) gridSize b hb

theorem minXof_attained (p : PolyCube) (hne : blocksOf p ≠ []) :
    ∃ b ∈ blocksOf p, minXof p = b.1 := by
  rcases foldl_min_attained (blocksOf p) (fun b => b.1) gridSize with h | hex
  · obtain ⟨b, hb⟩ := List.exists_mem_of_ne_nil _ hne
    have h1 : minXof p ≤ b.1 := minXof_le_mem p hb
    have h2 : b.1 < gridSize := ((mem_blocksOf p b).mp hb).1.1
    have h3 : minXof p = gridSize := h
    omega
  · exact hex

theorem minYof_attained (p : PolyCube) (hne : blocksOf p ≠ []) :
    ∃ b ∈ blocksOf p, minYof p = b.2.1 := by
  rcases foldl_min_attained (blocksOf p) (fun b => b.2.1) gridSize with h | hex
  · obtain ⟨b, hb⟩ := List.exists_mem_of_ne_nil _ hne
    have h1 : minYof p ≤ b.2.1 := minYof_le_mem p hb
    have h2 : b.2.1 < gridSize := ((mem_blocksOf p b).mp hb).1.2.1
    have h3 : minYof p = gridSize := h
    omega
  · exact hex

theorem minZof_attained (p : PolyCube) (hne : blocksOf p ≠ []) :
    ∃ b ∈ blocksOf p, minZof p = b.2.2 := by
  rcases foldl_min_attained (blocksOf p) (fun b => b.2.2) gridSize with h | hex
  · obtain ⟨b, hb⟩ := List.exists_mem_of_ne_nil _ hne
    have h1 : minZof p ≤ b.2.2 := minZof_le_mem p hb
    have h2 : b.2.2 < gridSize := ((mem_blocksOf p b).mp hb).1.2.2
    have h3 : minZof p = gridSize := h
    omega
  · exact hex

theorem blocksOf_normalize_ne_nil (p : PolyCube) (hne : blocksOf p ≠ []) :
    blocksOf (normalizePolyCube p) ≠ [] := by
  obtain ⟨b0, hb0⟩ := List.exists_mem_of_ne_nil _ hne
  intro hcontra
  have hmem : normShift p b0 ∈ blocksOf (normalizePolyCube p) := by
    rw [mem_blocksOf_normalize]
    exact List.mem_map_of_mem _ hb0
  rw [hcontra] at hmem
  cases hmem

theorem minXof_normalize (p : PolyCube) (hne : blocksOf p ≠ []) :
    minXof (normalizePolyCube p) = 0 := by
  obtain ⟨bx, hbx, hbxeq⟩ := minXof_attained p hne
  have hmem : normShift p bx ∈ blocksOf (normalizePolyCube p) := by
    rw [mem_blocksOf_normalize]
    exact List.mem_map_of_mem _ hbx
  have h1 : minXof (normalizePolyCube p) ≤ (normShift p bx).1 :=
    minXof_le_mem _ hmem
  have h2 : (normShift p bx).1 = 0 := by
    simp only [normShift]
    omega
  omega

theorem minYof_normalize (p : PolyCube) (hne : blocksOf p ≠ []) :
    minYof (normalizePolyCube p) = 0 := by
  obtain ⟨by0, hby, hbyeq⟩ := minYof_attained p hne
  have hmem : normShift p by0 ∈ blocksOf (normalizePolyCube p) := by
    rw [mem_blocksOf_normalize]
    exact List.mem_map_of_mem _ hby
  have h1 : minYof (normalizePolyCube p) ≤ (normShift p by0).2.1 :=
    minYof_le_mem _ hmem
  have h2 : (normShift p by0).2.1 = 0 := by
    simp only [normShift]
    omega
  omega

theorem minZof_normalize (p : PolyCube) (hne : blocksOf p ≠ []) :
    minZof (normalizePolyCube p) = 0 := by
  obtain ⟨bz, hbz, hbzeq⟩ := minZof_attained p hne
  have hmem : normShift p bz ∈ blocksOf (normalizePolyCube p) := by
    rw [mem_blocksOf_normalize]
    exact List.mem_map_of_mem _ hbz
  have h1 : minZof (normalizePolyCube p) ≤ (normShift p bz).2.2 :=
    minZof_le_mem _ hmem
  have h2 : (normShift p bz).2.2 = 0 := by
    simp only [normShift]
    omega
  omega

theorem normalizePolyCube_idem (p : PolyCube) :
    normalizePolyCube (normalizePolyCube p) = normalizePolyCube p := by
  by_cases hne : blocksOf p = []
  · have hb : blocksOf (normalizePolyCube p) = [] := by
      rw [List.eq_nil_iff_forall_not_mem]
      intro b hbmem
      rw [mem_blocksOf_normalize, hne, List.map_nil] at hbmem
      cases hbmem
    show buildCube ((blocksOf (normalizePolyCube p)).map (normShift (normalizePolyCube p))) =
      buildCube ((blocksOf p).map (normShift p))
    rw [hb, hne, List.map_nil, List.map_nil]
  · have hshift_id : ∀ b ∈ blocksOf (normalizePolyCube p),
        normShift (normalizePolyCube p) b = b := by
      intro b hb
      simp only [normShift, minXof_normalize p hne, minYof_normalize p hne,
        minZof_normalize p hne, Nat.sub_zero]
    have hmapid : (blocksOf (normalizePolyCube p)).map (normShift (normalizePolyCube p)) =
        blocksOf (normalizePolyCube p) := by
      rw [List.map_congr_left hshift_id]
      simp
    apply cube_ext (cubeShape_buildCube _) (cubeShape_buildCube _)
    intro x y z hx hy hz
    show cell3 (normalizePolyCube (normalizePolyCube p)) x y z = cell3 (normalizePolyCube p) x y z
    rw [cell3_normalize (normalizePolyCube p) x y z, hmapid, cell3_normalize p x y z]
    by_cases hm : (x, y, z) ∈ (blocksOf p).map (normShift p)
    · rw [if_pos hm, if_pos ((mem_blocksOf_normalize p (x, y, z)).mpr hm)]
    · rw [if_neg hm, if_neg (fun hmem => hm ((mem_blocksOf_normalize p (x, y, z)).mp hmem))]

theorem normalize2DGrid_of_ne (g : Grid2) (hne : filled2 g ≠ []) :
    normalize2DGrid g =
      ⟨((filled2 g).map fun rc => (rc.1 - minRof g, rc.2 - minCof g)).foldl
          (fun acc rc => set2 acc rc.1 rc.2 1)
          (emptyGrid (maxRof g - minRof g + 1) (maxCof g - minCof g + 1)),
        ⟨maxCof g - minCof g + 1, maxRof g - minRof g + 1⟩⟩ := by
  rw [normalize2DGrid, if_neg hne, List.foldl_map]

theorem minRof_le_mem (g : Grid2) {rc : Nat × Nat} (hrc : rc ∈ filled2 g) :
    minRof g ≤ rc.1 :=
  foldl_min_le_mem (filled2 g) (fun rc => rc.1) gridSize rc hrc

theorem minCof_le_mem (g : Grid2) {rc : Nat × Nat} (hrc : rc ∈ filled2 g) :
    minCof g ≤ rc.2 :=
  foldl_min_le_mem (filled2 g) (fun rc => rc.2) gridSize rc hrc

theorem mem_le_maxRof (g : Grid2) {rc : Nat × Nat} (hrc : rc ∈ filled2 g) :
    rc.1 ≤ maxRof g :=
  mem_le_foldl_max (filled2 g) (fun rc => rc.1) 0 rc hrc

theorem mem_le_maxCof (g : Grid2) {rc : Nat × Nat} (hrc : rc ∈ filled2 g) :
    rc.2 ≤ maxCof g :=
  mem_le_foldl_max (filled2 g) (fun rc => rc.2) 0 rc hrc

theorem minRof_attained (g : Grid2) (hne : filled2 g ≠ []) :
    ∃ rc ∈ filled2 g, minRof g = rc.1 := by
  rcases foldl_min_attained (filled2 g) (fun rc => rc.1) gridSize with h | hex
  · obtain ⟨rc, hrc⟩ := List.exists_mem_of_ne_nil _ hne
    have h1 : minRof g ≤ rc.1 := minRof_le_mem g hrc
    have h2 : rc.1 < gridSize := ((mem_filled2 g rc).mp hrc).1.1
    have h3 : minRof g = gridSize := h
    omega
  · exact hex

theorem minCof_attained (g : Grid2) (hne : filled2 g ≠ []) :
    ∃ rc ∈ filled2 g, minCof g = rc.2 := by
  rcases foldl_min_attained (filled2 g) (fun rc => rc.2) gridSize with h | hex
  · obtain ⟨rc, hrc⟩ := List.exists_mem_of_ne_nil _ hne
    have h1 : minCof g ≤ rc.2 := minCof_le_mem g hrc
    have h2 : rc.2 < gridSize := ((mem_filled2 g rc).mp hrc).1.2
    have h3 : minCof g = gridSize := h
    omega
  · exact hex

theorem maxRof_attained (g : Grid2) (hne : filled2 g ≠ []) :
    ∃ rc ∈ filled2 g, maxRof g = rc.1 := by
  rcases foldl_max_attained (filled2 g) (fun rc => rc.1) 0 with h | hex
  · obtain ⟨rc, hrc⟩ := List.exists_mem_of_ne_nil _ hne
    have h1 : rc.1 ≤ maxRof g := mem_le_maxRof g hrc
    have h2 : maxRof g = 0 := h
    exact ⟨rc, hrc, by omega⟩
  · exact hex

theorem maxCof_attained (g : Grid2) (hne : filled2 g ≠ []) :
    ∃ rc ∈ filled2 g, maxCof g = rc.2 := by
  rcases foldl_max_attained (filled2 g) (fun rc => rc.2) 0 with h | hex
  · obtain ⟨rc, hrc⟩ := List.exists_mem_of_ne_nil _ hne
    have h1 : rc.2 ≤ maxCof g := mem_le_maxCof g hrc
    have h2 : maxCof g = 0 := h
    exact ⟨rc, hrc, by omega⟩
  · exact hex

theorem shifted2_lt (g : Grid2) {rc : Nat × Nat} (hrc : rc ∈ filled2 g) :
    rc.1 - minRof g < maxRof g - minRof g + 1 ∧
      rc.2 - minCof g < maxCof g - minCof g + 1 := by
  have h1 := minRof_le_mem g hrc
  have h2 := mem_le_maxRof g hrc
  have h3 := minCof_le_mem g hrc
  have h4 := mem_le_maxCof g hrc
  omega

theorem gridShape_normalize2D (g : Grid2) (hne : filled2 g ≠ []) :
    gridShape (normalize2DGrid g).normalizedGrid
      (maxRof g - minRof g + 1) (maxCof g - minCof g + 1) := by
  rw [normalize2DGrid_of_ne g hne]
  exact gridShape_foldSet _ (gridShape_emptyGrid _ _)

theorem cell2_normalize2D (g : Grid2) (hne : filled2 g ≠ []) (r c : Nat) :
    cell2 (normalize2DGrid g).normalizedGrid r c =
      if (r, c) ∈ (filled2 g).map (fun rc => (rc.1 - minRof g, rc.2 - minCof g))
        then 1 else 0 := by
  have hL : ∀ rc ∈ (filled2 g).map (fun rc => (rc.1 - minRof g, rc.2 - minCof g)),
      rc.1 < maxRof g - minRof g + 1 ∧ rc.2 < maxCof g - minCof g + 1 := by
    intro rc hrc
    obtain ⟨rc0, hrc0, rfl⟩ := List.mem_map.mp hrc
    exact shifted2_lt g hrc0
  rw [normalize2DGrid_of_ne g hne]
  rw [cell2_foldSet _ (gridShape_emptyGrid _ _) hL r c, cell2_emptyGrid]

theorem mem_filled2_normalize (g : Grid2) (hne : filled2 g ≠ []) (rc : Nat × Nat) :
    rc ∈ filled2 (normalize2DGrid g).normalizedGrid ↔
      rc ∈ (filled2 g).map (fun rc => (rc.1 - minRof g, rc.2 - minCof g)) := by
  constructor
  · intro h
    have h1 := ((mem_filled2 _ _).mp h).2
    rw [cell2_normalize2D g hne] at h1
    by_cases hm : (rc.1, rc.2) ∈ (filled2 g).map
      (fun rc => (rc.1 - minRof g, rc.2 - minCof g))
    · exact hm
    · rw [if_neg hm] at h1
      omega
  · intro hm
    rw [mem_filled2]
    obtain ⟨rc0, hrc0, hrc0eq⟩ := List.mem_map.mp hm
    have h0 := ((mem_filled2 g rc0).mp hrc0).1
    refine ⟨?_, ?_⟩
    · rw [← hrc0eq]
      constructor
      · show rc0.1 - minRof g < gridSize
        omega
      · show rc0.2 - minCof g < gridSize
        omega
    · rw [cell2_normalize2D g hne, if_pos hm]

theorem filled2_normalize_ne_nil (g : Grid2) (hne : filled2 g ≠ []) :
    filled2 (normalize2DGrid g).normalizedGrid ≠ [] := by
  obtain ⟨rc0, hrc0⟩ := List.exists_mem_of_ne_nil _ hne
  intro hcontra
  have hmem : (rc0.1 - minRof g, rc0.2 - minCof g) ∈
      filled2 (normalize2DGrid g).normalizedGrid := by
    rw [mem_filled2_normalize g hne]
    exact List.mem_map_of_mem _ hrc0
  rw [hcontra] at hmem
  cases hmem

theorem minRof_normalize (g : Grid2) (hne : filled2 g ≠ []) :
    minRof (normalize2DGrid g).normalizedGrid = 0 := by
  obtain ⟨rc0, hrc0, heq⟩ := minRof_attained g hne
  have hmem : (rc0.1 - minRof g, rc0.2 - minCof g) ∈
      filled2 (normalize2DGrid g).normalizedGrid := by
    rw [mem_filled2_normalize g hne]
    exact List.mem_map_of_mem _ hrc0
  have h1 : minRof (normalize2DGrid g).normalizedGrid ≤ rc0.1 - minRof g :=
    minRof_le_mem _ hmem
  omega

theorem minCof_normalize (g : Grid2) (hne : filled2 g ≠ []) :
    minCof (normalize2DGrid g).normalizedGrid = 0 := by
  obtain ⟨rc0, hrc0, heq⟩ := minCof_attained g hne
  have hmem : (rc0.1 - minRof g, rc0.2 - minCof g) ∈
      filled2 (normalize2DGrid g).normalizedGrid := by
    rw [mem_filled2_normalize g hne]
    exact List.mem_map_of_mem _ hrc0
  have h1 : minCof (normalize2DGrid g).normalizedGrid ≤ rc0.2 - minCof g :=
    minCof_le_mem _ hmem
  omega

theorem maxRof_normalize (g : Grid2) (hne : filled2 g ≠ []) :
    maxRof (normalize2DGrid g).normalizedGrid = maxRof g - minRof g := by
  obtain ⟨rc0, hrc0, heq⟩ := maxRof_attained g hne
  have hmem : (rc0.1 - minRof g, rc0.2 - minCof g) ∈
      filled2 (normalize2DGrid g).normalizedGrid := by
    rw [mem_filled2_normalize g hne]
    exact List.mem_map_of_mem _ hrc0
  have h1 : rc0.1 - minRof g ≤ maxRof (normalize2DGrid g).normalizedGrid :=
    mem_le_maxRof _ hmem
  have h2 : maxRof (normalize2DGrid g).normalizedGrid ≤ maxRof g - minRof g := by
    apply foldl_max_le
    · omega
    · intro rc hrc
      rw [mem_filled2_normalize g hne] at hrc
      obtain ⟨rc1, hrc1, hrc1eq⟩ := List.mem_map.mp hrc
      have h3 := mem_le_maxRof g hrc1
      have h4 := minRof_le_mem g hrc1
      rw [← hrc1eq]
      show rc1.1 - minRof g ≤ maxRof g - minRof g
      omega
  omega

theorem maxCof_normalize (g : Grid2) (hne : filled2 g ≠ []) :
    maxCof (normalize2DGrid g).normalizedGrid = maxCof g - minCof g := by
  obtain ⟨rc0, hrc0, heq⟩ := maxCof_attained g hne
  have hmem : (rc0.1 - minRof g, rc0.2 - minCof g) ∈
      filled2 (normalize2DGrid g).normalizedGrid := by
    rw [mem_filled2_normalize g hne]
    exact List.mem_map_of_mem _ hrc0
  have h1 : rc0.2 - minCof g ≤ maxCof (normalize2DGrid g).normalizedGrid :=
    mem_le_maxCof _ hmem
  have h2 : maxCof (normalize2DGrid g).normalizedGrid ≤ maxCof g - minCof g := by
    apply foldl_max_le
    · omega
    · intro rc hrc
      rw [mem_filled2_normalize g hne] at hrc
      obtain ⟨rc1, hrc1, hrc1eq⟩ := List.mem_map.mp hrc
      have h3 := mem_le_maxCof g hrc1
      have h4 := minCof_le_mem g hrc1
      rw [← hrc1eq]
      show rc1.2 - minCof g ≤ maxCof g - minCof g
      omega
  omega

theorem filled2_lt_shape {g : Grid2} {hh w : Nat} (hg : gridShape g hh w)
    {rc : Nat × Nat} (hrc : rc ∈ filled2 g) : rc.1 < hh ∧ rc.2 < w := by
  have h1 := ((mem_filled2 _ _).mp hrc).2
  constructor
  · by_contra hcon
    push_neg at hcon
    rw [cell2_zero_of_row hg hcon] at h1
    omega
  · by_contra hcon
    push_neg at hcon
    rw [cell2_zero_of_col hg hcon] at h1
    omega

theorem normalize2DGrid_idem (g : Grid2) :
    normalize2DGrid (normalize2DGrid g).normalizedGrid = normalize2DGrid g := by
  by_cases hne : filled2 g = []
  · have h0 : normalize2DGrid g = ⟨[], ⟨0, 0⟩⟩ := by
      rw [normalize2DGrid, if_pos hne]
    rw [h0]
    show normalize2DGrid [] = (⟨[], ⟨0, 0⟩⟩ : Norm2Result)
    decide
  · have hNne := filled2_normalize_ne_nil g hne
    have hshift_id : ∀ rc ∈ filled2 (normalize2DGrid g).normalizedGrid,
        (rc.1 - minRof (normalize2DGrid g).normalizedGrid,
          rc.2 - minCof (normalize2DGrid g).normalizedGrid) = rc := by
      intro rc hrc
      rw [minRof_normalize g hne, minCof_normalize g hne]
      simp
    have hmapid : (filled2 (normalize2DGrid g).normalizedGrid).map
        (fun rc => (rc.1 - minRof (normalize2DGrid g).normalizedGrid,
          rc.2 - minCof (normalize2DGrid g).normalizedGrid)) =
        filled2 (normalize2DGrid g).normalizedGrid := by
      rw [List.map_congr_left hshift_id]
      simp
    have hNshape := gridShape_normalize2D g hne
    have hgrid : (normalize2DGrid (normalize2DGrid g).normalizedGrid).normalizedGrid =
        (normalize2DGrid g).normalizedGrid := by
      rw [normalize2DGrid_of_ne _ hNne, hmapid,
        maxRof_normalize g hne, minRof_normalize g hne,
        maxCof_normalize g hne, minCof_normalize g hne, Nat.sub_zero, Nat.sub_zero]
      have hG1 : gridShape ((filled2 (normalize2DGrid g).normalizedGrid).foldl
          (fun acc rc => set2 acc rc.1 rc.2 1)
          (emptyGrid (maxRof g - minRof g + 1) (maxCof g - minCof g + 1)))
          (maxRof g - minRof g + 1) (maxCof g - minCof g + 1) :=
        gridShape_foldSet _ (gridShape_emptyGrid _ _)
      have hLN : ∀ rc ∈ filled2 (normalize2DGrid g).normalizedGrid,
          rc.1 < maxRof g - minRof g + 1 ∧ rc.2 < maxCof g - minCof g + 1 :=
        fun rc hrc => filled2_lt_shape hNshape hrc
      apply grid_ext hG1 hNshape
      intro r c hr hc
      rw [cell2_foldSet _ (gridShape_emptyGrid _ _) hLN r c, cell2_emptyGrid,
        cell2_normalize2D g hne r c]
      by_cases hm : (r, c) ∈ (filled2 g).map (fun rc => (rc.1 - minRof g, rc.2 - minCof g))
      · rw [if_pos hm, if_pos ((mem_filled2_normalize g hne (r, c)).mpr hm)]
      · rw [if_neg hm, if_neg (fun hmem => hm ((mem_filled2_normalize g hne (r, c)).mp hmem))]
    have hdims : (normalize2DGrid (normalize2DGrid g).normalizedGrid).dimensions =
        (normalize2DGrid g).dimensions := by
      rw [normalize2DGrid_of_ne _ hNne,
        maxRof_normalize g hne, minRof_normalize g hne,
        maxCof_normalize g hne, minCof_normalize g hne, Nat.sub_zero, Nat.sub_zero,
        normalize2DGrid_of_ne _ hne]
    have heta : normalize2DGrid (normalize2DGrid g).normalizedGrid =
        (⟨(normalize2DGrid (normalize2DGrid g).normalizedGrid).normalizedGrid,
          (normalize2DGrid (normalize2DGrid g).normalizedGrid).dimensions⟩ : Norm2Result) := rfl
    rw [heta, hgrid, hdims]

set_option maxRecDepth 40000 in
/-- C4 counterexample: the claim says normalization returns a container whose
extent on each axis equals max−min+1 of the occupied coordinates. For the 3D
normalizer and the single-voxel cube `[[[1]]]` the occupied x-extent
(max−min+1, the width computed by `calculateDimensions`) is 1, but the
returned container always has x-extent GRID_SIZE = 8. -/
theorem c4_container_extent_counterexample :
    ¬ (((normalizePolyCube [[[1]]]).length : Int) =
        (calculateDimensions [[[1]]]).width) := by
  decide

/-- C4 (amended): for a non-empty grid, 2D normalization returns a tight
container of extent max−min+1 per axis, while 3D normalization always returns
a GRID_SIZE³ container; in both, exactly the occupied coordinates shifted by
−min per axis are re-inserted, so the minimum occupied coordinate on every
axis is 0 afterwards. -/
theorem c4_normalization_amended (p : PolyCube) (g : Grid2)
    (hp : blocksOf p ≠ []) (hg : filled2 g ≠ []) :
    ((normalizePolyCube p).length = gridSize ∧
      (∀ pl ∈ normalizePolyCube p, pl.length = gridSize ∧
        ∀ row ∈ pl, row.length = gridSize) ∧
      (∀ x y z : Nat, cell3 (normalizePolyCube p) x y z = 1 ↔
        ∃ b ∈ blocksOf p, normShift p b = (x, y, z)) ∧
      (∃ y z, cell3 (normalizePolyCube p) 0 y z = 1) ∧
      (∃ x z, cell3 (normalizePolyCube p) x 0 z = 1) ∧
      (∃ x y, cell3 (normalizePolyCube p) x y 0 = 1)) ∧
    ((normalize2DGrid g).normalizedGrid.length = maxRof g - minRof g + 1 ∧
      (∀ row ∈ (normalize2DGrid g).normalizedGrid,
        row.length = maxCof g - minCof g + 1) ∧
      (normalize2DGrid g).dimensions =
        ⟨maxCof g - minCof g + 1, maxRof g - minRof g + 1⟩ ∧
      (∀ r c : Nat, cell2 (normalize2DGrid g).normalizedGrid r c = 1 ↔
        ∃ rc ∈ filled2 g, (rc.1 - minRof g, rc.2 - minCof g) = (r, c)) ∧
      (∃ c, cell2 (normalize2DGrid g).normalizedGrid 0 c = 1) ∧
      (∃ r, cell2 (normalize2DGrid g).normalizedGrid r 0 = 1)) := by
  have hcube := cubeShape_buildCube ((blocksOf p).map (normShift p))
  have hcell3 : ∀ x y z : Nat, cell3 (normalizePolyCube p) x y z = 1 ↔
      ∃ b ∈ blocksOf p, normShift p b = (x, y, z) := by
    intro x y z
    rw [cell3_normalize]
    constructor
    · intro h
      by_cases hm : (x, y, z) ∈ (blocksOf p).map (normShift p)
      · exact List.mem_map.mp hm
      · rw [if_neg hm] at h
        omega
    · intro hex
      rw [if_pos (List.mem_map.mpr hex)]
  have hcell2 : ∀ r c : Nat, cell2 (normalize2DGrid g).normalizedGrid r c = 1 ↔
      ∃ rc ∈ filled2 g, (rc.1 - minRof g, rc.2 - minCof g) = (r, c) := by
    intro r c
    rw [cell2_normalize2D g hg]
    constructor
    · intro h
      by_cases hm : (r, c) ∈ (filled2 g).map
        (fun rc => (rc.1 - minRof g, rc.2 - minCof g))
      · exact List.mem_map.mp hm
      · rw [if_neg hm] at h
        omega
    · intro hex
      rw [if_pos (List.mem_map.mpr hex)]
  refine ⟨⟨hcube.1, hcube.2, hcell3, ?_, ?_, ?_⟩,
    ⟨(gridShape_normalize2D g hg).1, (gridShape_normalize2D g hg).2, ?_, hcell2, ?_, ?_⟩⟩
  · obtain ⟨b0, hb0, heq⟩ := minXof_attained p hp
    refine ⟨b0.2.1 - minYof p, b0.2.2 - minZof p, (hcell3 _ _ _).mpr ⟨b0, hb0, ?_⟩⟩
    simp only [normShift]
    exact Prod.ext (show b0.1 - minXof p = 0 by omega) rfl
  · obtain ⟨b0, hb0, heq⟩ := minYof_attained p hp
    refine ⟨b0.1 - minXof p, b0.2.2 - minZof p, (hcell3 _ _ _).mpr ⟨b0, hb0, ?_⟩⟩
    simp only [normShift]
    exact Prod.ext rfl (Prod.ext (show b0.2.1 - minYof p = 0 by omega) rfl)
  · obtain ⟨b0, hb0, heq⟩ := minZof_attained p hp
    refine ⟨b0.1 - minXof p, b0.2.1 - minYof p, (hcell3 _ _ _).mpr ⟨b0, hb0, ?_⟩⟩
    simp only [normShift]
    exact Prod.ext rfl (Prod.ext rfl (show b0.2.2 - minZof p = 0 by omega))
  · rw [normalize2DGrid_of_ne g hg]
  · obtain ⟨rc0, hrc0, heq⟩ := minRof_attained g hg
    refine ⟨rc0.2 - minCof g, (hcell2 _ _).mpr ⟨rc0, hrc0, ?_⟩⟩
    exact Prod.ext (show rc0.1 - minRof g = 0 by omega) rfl
  · obtain ⟨rc0, hrc0, heq⟩ := minCof_attained g hg
    refine ⟨rc0.1 - minRof g, (hcell2 _ _).mpr ⟨rc0, hrc0, ?_⟩⟩
    exact Prod.ext rfl (show rc0.2 - minCof g = 0 by omega)

set_option maxRecDepth 40000 in
/-- C4 amended witness: the amended statement evaluated at the single-voxel
cube `[[[1]]]` and the single-cell grid `[[0, 1]]`. -/
theorem c4_normalization_amended_witness :
    ((normalizePolyCube [[[1]]]).length = gridSize ∧
      (∀ pl ∈ normalizePolyCube [[[1]]], pl.length = gridSize ∧
        ∀ row ∈ pl, row.length = gridSize) ∧
      (∀ x y z : Nat, cell3 (normalizePolyCube [[[1]]]) x y z = 1 ↔
        ∃ b ∈ blocksOf [[[1]]], normShift [[[1]]] b = (x, y, z)) ∧
      (∃ y z, cell3 (normalizePolyCube [[[1]]]) 0 y z = 1) ∧
      (∃ x z, cell3 (normalizePolyCube [[[1]]]) x 0 z = 1) ∧
      (∃ x y, cell3 (normalizePolyCube [[[1]]]) x y 0 = 1)) ∧
    ((normalize2DGrid [[0, 1]]).normalizedGrid.length =
        maxRof [[0, 1]] - minRof [[0, 1]] + 1 ∧
      (∀ row ∈ (normalize2DGrid [[0, 1]]).normalizedGrid,
        row.length = maxCof [[0, 1]] - minCof [[0, 1]] + 1) ∧
      (normalize2DGrid [[0, 1]]).dimensions =
        ⟨maxCof [[0, 1]] - minCof [[0, 1]] + 1, maxRof [[0, 1]] - minRof [[0, 1]] + 1⟩ ∧
      (∀ r c : Nat, cell2 (normalize2DGrid [[0, 1]]).normalizedGrid r c = 1 ↔
        ∃ rc ∈ filled2 [[0, 1]],
          (rc.1 - minRof [[0, 1]], rc.2 - minCof [[0, 1]]) = (r, c)) ∧
      (∃ c, cell2 (normalize2DGrid [[0, 1]]).normalizedGrid 0 c = 1) ∧
      (∃ r, cell2 (normalize2DGrid [[0, 1]]).normalizedGrid r 0 = 1)) :=
  c4_normalization_amended [[[1]]] [[0, 1]] (by decide) (by decide)

/-- C5: normalization is idempotent, for the 3D normalizer and for the 2D
normalizer: renormalizing an already-normalized grid (in particular, the
output of any normalization, so twice equals once, and normalized inputs are
fixed points) yields the identical grid value. -/
theorem c5_normalization_idempotent :
    (∀ p : PolyCube, normalizePolyCube (normalizePolyCube p) = normalizePolyCube p) ∧
    (∀ g : Grid2, normalize2DGrid (normalize2DGrid g).normalizedGrid = normalize2DGrid g) :=
  ⟨normalizePolyCube_idem, normalize2DGrid_idem⟩

theorem calcOrtho_of_zero (p : PolyCube) (dims : Dimensions)
    (h : dims.width = 0 ∨ dims.height = 0 ∨ dims.depth = 0) :
    calculateOrthographicProjections p dims =
      ⟨emptyGrid gridSize gridSize, emptyGrid gridSize gridSize, emptyGrid gridSize gridSize,
        ⟨0, 0⟩, ⟨0, 0⟩, ⟨0, 0⟩⟩ := by
  rw [calculateOrthographicProjections, if_pos h]

theorem foldl_mark3_split (L : List (Nat × Nat × Nat)) (o1 o2 o3 : ViewOffsets)
    (g1 g2 g3 : Grid2) :
    L.foldl (fun st b =>
        (markCell st.1 (forwardCell .front o1 b).1 (forwardCell .front o1 b).2,
         markCell st.2.1 (forwardCell .top o2 b).1 (forwardCell .top o2 b).2,
         markCell st.2.2 (forwardCell .side o3 b).1 (forwardCell .side o3 b).2))
      (g1, g2, g3) =
      (L.foldl (fun g b => markCell g (forwardCell .front o1 b).1 (forwardCell .front o1 b).2) g1,
       L.foldl (fun g b => markCell g (forwardCell .top o2 b).1 (forwardCell .top o2 b).2) g2,
       L.foldl (fun g b => markCell g (forwardCell .side o3 b).1 (forwardCell .side o3 b).2) g3) := by
  induction L generalizing g1 g2 g3 with
  | nil => rfl
  | cons b t ih => exact ih _ _ _

theorem calcOrtho_eq (p : PolyCube) (dims : Dimensions)
    (h : ¬ (dims.width = 0 ∨ dims.height = 0 ∨ dims.depth = 0)) :
    calculateOrthographicProjections p dims =
      ⟨(blocksOf p).foldl (fun g b =>
          markCell g (forwardCell .front (centerOffsets dims).1 b).1
            (forwardCell .front (centerOffsets dims).1 b).2) (emptyGrid gridSize gridSize),
        (blocksOf p).foldl (fun g b =>
          markCell g (forwardCell .top (centerOffsets dims).2.1 b).1
            (forwardCell .top (centerOffsets dims).2.1 b).2) (emptyGrid gridSize gridSize),
        (blocksOf p).foldl (fun g b =>
          markCell g (forwardCell .side (centerOffsets dims).2.2 b).1
            (forwardCell .side (centerOffsets dims).2.2 b).2) (emptyGrid gridSize gridSize),
        (centerOffsets dims).1, (centerOffsets dims).2.1, (centerOffsets dims).2.2⟩ := by
  simp only [calculateOrthographicProjections]
  rw [if_neg h, foldl_mark3_split]

theorem gridShape_foldMark (L : List (Nat × Nat × Nat)) (pos1 pos2 : Nat × Nat × Nat → Int)
    {g : Grid2} (hg : gridShape g gridSize gridSize) :
    gridShape (L.foldl (fun acc b => markCell acc (pos1 b) (pos2 b)) g) gridSize gridSize := by
  induction L generalizing g with
  | nil => exact hg
  | cons b t ih =>
    refine ih ?_
    simp only [markCell]
    split
    · exact gridShape_set2 hg _ _ _
    · exact hg

theorem cell2_foldMark (L : List (Nat × Nat × Nat)) (pos1 pos2 : Nat × Nat × Nat → Int)
    {g : Grid2} (hg : gridShape g gridSize gridSize) (r c : Nat)
    (hr : r < gridSize) (hc : c < gridSize) :
    cell2 (L.foldl (fun acc b => markCell acc (pos1 b) (pos2 b)) g) r c =
      if ∃ b ∈ L, pos1 b = (r : Int) ∧ pos2 b = (c : Int) then 1 else cell2 g r c := by
  induction L generalizing g with
  | nil => simp
  | cons b t ih =>
    have hshape : gridShape (markCell g (pos1 b) (pos2 b)) gridSize gridSize := by
      simp only [markCell]
      split
      · exact gridShape_set2 hg _ _ _
      · exact hg
    rw [List.foldl_cons, ih hshape]
    by_cases hex : ∃ b2 ∈ t, pos1 b2 = (r : Int) ∧ pos2 b2 = (c : Int)
    · rw [if_pos hex]
      obtain ⟨b2, hb2, hb2eq⟩ := hex
      rw [if_pos ⟨b2, List.mem_cons_of_mem _ hb2, hb2eq⟩]
    · rw [if_neg hex]
      by_cases hb : pos1 b = (r : Int) ∧ pos2 b = (c : Int)
      · rw [if_pos ⟨b, List.mem_cons_self b t, hb⟩]
        simp only [markCell]
        have hguard : 0 ≤ pos1 b ∧ pos1 b < (gridSize : Int) ∧
            0 ≤ pos2 b ∧ pos2 b < (gridSize : Int) := by
          obtain ⟨h1, h2⟩ := hb
          omega
        rw [if_pos hguard]
        have ht1 : (pos1 b).toNat = r := by omega
        have ht2 : (pos2 b).toNat = c := by omega
        rw [ht1, ht2, cell2_set2 hg r c 1 r c hr hc, if_pos ⟨rfl, rfl⟩]
      · have hnone : cell2 (markCell g (pos1 b) (pos2 b)) r c = cell2 g r c := by
          simp only [markCell]
          by_cases hguard : 0 ≤ pos1 b ∧ pos1 b < (gridSize : Int) ∧
              0 ≤ pos2 b ∧ pos2 b < (gridSize : Int)
          · rw [if_pos hguard, cell2_set2 hg _ _ 1 r c (by omega) (by omega)]
            have hcond : ¬ ((pos1 b).toNat = r ∧ (pos2 b).toNat = c) := by
              rintro ⟨h1, h2⟩
              exact hb ⟨by omega, by omega⟩
            rw [if_neg hcond]
          · rw [if_neg hguard]
        rw [hnone]
        have hcond2 : ¬ ∃ b2 ∈ b :: t, pos1 b2 = (r : Int) ∧ pos2 b2 = (c : Int) := by
          rintro ⟨b2, hb2, hb2eq⟩
          rcases List.mem_cons.mp hb2 with rfl | hb2t
          · exact hb hb2eq
          · exact hex ⟨b2, hb2t, hb2eq⟩
        rw [if_neg hcond2]

theorem viewOff_calcOrtho (p : PolyCube) (dims : Dimensions)
    (h : ¬ (dims.width = 0 ∨ dims.height = 0 ∨ dims.depth = 0)) (v : ViewType) :
    viewOff v (calculateOrthographicProjections p dims) =
      (match v with
        | .front => (centerOffsets dims).1
        | .top => (centerOffsets dims).2.1
        | .side => (centerOffsets dims).2.2) := by
  rw [calcOrtho_eq p dims h]
  cases v <;> rfl

theorem gridShape_viewGrid (p : PolyCube) (dims : Dimensions)
    (h : ¬ (dims.width = 0 ∨ dims.height = 0 ∨ dims.depth = 0)) (v : ViewType) :
    gridShape (viewGrid v (calculateOrthographicProjections p dims)) gridSize gridSize := by
  rw [calcOrtho_eq p dims h]
  cases v <;>
    exact gridShape_foldMark (blocksOf p) _ _ (gridShape_emptyGrid gridSize gridSize)

theorem cell2_viewGrid (p : PolyCube) (dims : Dimensions)
    (h : ¬ (dims.width = 0 ∨ dims.height = 0 ∨ dims.depth = 0)) (v : ViewType)
    (r c : Nat) (hr : r < gridSize) (hc : c < gridSize) :
    cell2 (viewGrid v (calculateOrthographicProjections p dims)) r c =
      if ∃ b ∈ blocksOf p,
          forwardCell v (viewOff v (calculateOrthographicProjections p dims)) b =
            ((r : Int), (c : Int))
        then 1 else 0 := by
  rw [viewOff_calcOrtho p dims h v, calcOrtho_eq p dims h]
  cases v <;>
  · simp only [viewGrid]
    rw [cell2_foldMark (blocksOf p) _ _ (gridShape_emptyGrid gridSize gridSize) r c hr hc,
      cell2_emptyGrid]
    refine if_congr ?_ rfl rfl
    constructor
    · rintro ⟨b, hb, h1, h2⟩
      exact ⟨b, hb, Prod.ext h1 h2⟩
    · rintro ⟨b, hb, heq⟩
      exact ⟨b, hb, congrArg Prod.fst heq, congrArg Prod.snd heq⟩

theorem mem_find3D_front (p : PolyCube) (row col : Int) (off : ViewOffsets)
    (dims : Dimensions) (b : Nat × Nat × Nat) :
    b ∈ find3DBlocksFor2DCell p .front row col off dims ↔
      b ∈ blocksOf p ∧ (b.1 : Int) = col - off.x ∧
        (b.2.1 : Int) = (gridSize : Int) - 1 - row - off.y := by
  simp [find3DBlocksFor2DCell, List.mem_filter]

theorem mem_find3D_top (p : PolyCube) (row col : Int) (off : ViewOffsets)
    (dims : Dimensions) (b : Nat × Nat × Nat) :
    b ∈ find3DBlocksFor2DCell p .top row col off dims ↔
      b ∈ blocksOf p ∧ (b.1 : Int) = row - off.y ∧ (b.2.2 : Int) = col - off.x := by
  simp [find3DBlocksFor2DCell, List.mem_filter]

theorem mem_find3D_side (p : PolyCube) (row col : Int) (off : ViewOffsets)
    (dims : Dimensions) (b : Nat × Nat × Nat) :
    b ∈ find3DBlocksFor2DCell p .side row col off dims ↔
      b ∈ blocksOf p ∧ (b.2.2 : Int) = col - off.x ∧
        (b.2.1 : Int) = (gridSize : Int) - 1 - row - off.y := by
  simp [find3DBlocksFor2DCell, List.mem_filter]

/-- C1: for every polyCube, dimensions value, view, and canvas cell (r, c)
marked 1 in that view by `calculateOrthographicProjections`, calling
`find3DBlocksFor2DCell` on that cell with the offsets returned for the view
yields a non-empty list of occupied blocks, and every block in the list maps
back to exactly (r, c) under the view's forward projection formula. -/
theorem c1_projection_unprojection_round_trip (p : PolyCube) (dims : Dimensions)
    (v : ViewType) (r c : Nat)
    (hmark : cell2 (viewGrid v (calculateOrthographicProjections p dims)) r c = 1) :
    find3DBlocksFor2DCell p v (r : Int) (c : Int)
        (viewOff v (calculateOrthographicProjections p dims)) dims ≠ [] ∧
      ∀ b ∈ find3DBlocksFor2DCell p v (r : Int) (c : Int)
          (viewOff v (calculateOrthographicProjections p dims)) dims,
        cell3 p b.1 b.2.1 b.2.2 = 1 ∧
          forwardCell v (viewOff v (calculateOrthographicProjections p dims)) b =
            ((r : Int), (c : Int)) := by
  by_cases hzero : dims.width = 0 ∨ dims.height = 0 ∨ dims.depth = 0
  · exfalso
    rw [calcOrtho_of_zero p dims hzero] at hmark
    cases v <;> simp only [viewGrid] at hmark <;>
      rw [cell2_emptyGrid] at hmark <;> omega
  · have hshape := gridShape_viewGrid p dims hzero v
    have hr : r < gridSize := by
      by_contra hcon
      push_neg at hcon
      rw [cell2_zero_of_row hshape hcon] at hmark
      omega
    have hc : c < gridSize := by
      by_contra hcon
      push_neg at hcon
      rw [cell2_zero_of_col hshape hcon] at hmark
      omega
    rw [cell2_viewGrid p dims hzero v r c hr hc] at hmark
    by_cases hex : ∃ b ∈ blocksOf p,
        forwardCell v (viewOff v (calculateOrthographicProjections p dims)) b =
          ((r : Int), (c : Int))
    swap
    · rw [if_neg hex] at hmark
      omega
    obtain ⟨b0, hb0, hb0eq⟩ := hex
    have hcomp : (forwardCell v (viewOff v (calculateOrthographicProjections p dims)) b0).1 =
          (r : Int) ∧
        (forwardCell v (viewOff v (calculateOrthographicProjections p dims)) b0).2 =
          (c : Int) := by
      rw [hb0eq]
      exact ⟨rfl, rfl⟩
    obtain ⟨h1, h2⟩ := hcomp
    cases v
    · -- front
      simp only [forwardCell] at h1 h2
      have hb0mem : b0 ∈ find3DBlocksFor2DCell p .front (r : Int) (c : Int)
          (viewOff .front (calculateOrthographicProjections p dims)) dims := by
        rw [mem_find3D_front]
        exact ⟨hb0, by omega, by omega⟩
      refine ⟨List.ne_nil_of_mem hb0mem, ?_⟩
      intro b hb
      rw [mem_find3D_front] at hb
      obtain ⟨hmem, hx, hy⟩ := hb
      refine ⟨((mem_blocksOf p b).mp hmem).2, ?_⟩
      simp only [forwardCell, Prod.mk.injEq]
      constructor <;> omega
    · -- top
      simp only [forwardCell] at h1 h2
      have hb0mem : b0 ∈ find3DBlocksFor2DCell p .top (r : Int) (c : Int)
          (viewOff .top (calculateOrthographicProjections p dims)) dims := by
        rw [mem_find3D_top]
        exact ⟨hb0, by omega, by omega⟩
      refine ⟨List.ne_nil_of_mem hb0mem, ?_⟩
      intro b hb
      rw [mem_find3D_top] at hb
      obtain ⟨hmem, hx, hy⟩ := hb
      refine ⟨((mem_blocksOf p b).mp hmem).2, ?_⟩
      simp only [forwardCell, Prod.mk.injEq]
      constructor <;> omega
    · -- side
      simp only [forwardCell] at h1 h2
      have hb0mem : b0 ∈ find3DBlocksFor2DCell p .side (r : Int) (c : Int)
          (viewOff .side (calculateOrthographicProjections p dims)) dims := by
        rw [mem_find3D_side]
        exact ⟨hb0, by omega, by omega⟩
      refine ⟨List.ne_nil_of_mem hb0mem, ?_⟩
      intro b hb
      rw [mem_find3D_side] at hb
      obtain ⟨hmem, hx, hy⟩ := hb
      refine ⟨((mem_blocksOf p b).mp hmem).2, ?_⟩
      simp only [forwardCell, Prod.mk.injEq]
      constructor <;> omega

set_option maxRecDepth 40000 in
/-- C1 witness: the single-voxel cube `[[[1]]]` projects its voxel to front
cell (4, 3); the inverse lookup there is non-empty and round-trips. -/
theorem c1_round_trip_witness :
    find3DBlocksFor2DCell [[[1]]] .front ((4 : Nat) : Int) ((3 : Nat) : Int)
        (viewOff .front
          (calculateOrthographicProjections [[[1]]] (calculateDimensions [[[1]]])))
        (calculateDimensions [[[1]]]) ≠ [] ∧
      ∀ b ∈ find3DBlocksFor2DCell [[[1]]] .front ((4 : Nat) : Int) ((3 : Nat) : Int)
          (viewOff .front
            (calculateOrthographicProjections [[[1]]] (calculateDimensions [[[1]]])))
          (calculateDimensions [[[1]]]),
        cell3 [[[1]]] b.1 b.2.1 b.2.2 = 1 ∧
          forwardCell .front
            (viewOff .front
              (calculateOrthographicProjections [[[1]]] (calculateDimensions [[[1]]]))) b =
            (((4 : Nat) : Int), ((3 : Nat) : Int)) :=
  c1_projection_unprojection_round_trip [[[1]]] (calculateDimensions [[[1]]]) .front 4 3
    (by decide)

/-- C8: whenever any of width/height/depth is 0, the projection calculator
returns three all-empty GRID_SIZE × GRID_SIZE grids with (0, 0) offsets for
all three views. -/
theorem c8_zero_dimension_empty_views (p : PolyCube) (d : Dimensions)
    (h : d.width = 0 ∨ d.height = 0 ∨ d.depth = 0) :
    calculateOrthographicProjections p d =
      ⟨emptyGrid gridSize gridSize, emptyGrid gridSize gridSize, emptyGrid gridSize gridSize,
        ⟨0, 0⟩, ⟨0, 0⟩, ⟨0, 0⟩⟩ :=
  calcOrtho_of_zero p d h

/-- C8 witness: a non-empty polyCube with a claimed width of 0 still yields
the three empty views with zero offsets. -/
theorem c8_zero_dimension_witness :
    calculateOrthographicProjections [[[1]]] ⟨0, 5, 5⟩ =
      ⟨emptyGrid gridSize gridSize, emptyGrid gridSize gridSize, emptyGrid gridSize gridSize,
        ⟨0, 0⟩, ⟨0, 0⟩, ⟨0, 0⟩⟩ :=
  c8_zero_dimension_empty_views [[[1]]] ⟨0, 5, 5⟩ (Or.inl rfl)

/-- C10: `find3DBlocksFor2DCell` never reads its dimensions argument — the
result is identical for any two dimensions values. -/
theorem c10_find3D_ignores_dimensions (p : PolyCube) (v : ViewType) (row col : Int)
    (off : ViewOffsets) (d1 d2 : Dimensions) :
    find3DBlocksFor2DCell p v row col off d1 = find3DBlocksFor2DCell p v row col off d2 := rfl

theorem cell3I_of_nonneg (p : PolyCube) {x y z : Int} (hx : 0 ≤ x) (hy : 0 ≤ y)
    (hz : 0 ≤ z) : cell3I p x y z = cell3 p x.toNat y.toNat z.toNat := by
  rw [cell3I, if_pos ⟨hx, hy, hz⟩]

theorem isNaturallyExposed_false (p : PolyCube) (x y z wx wy wz : Nat)
    (f : FaceDefinition)
    (hwx : wx < gridSize) (hwy : wy < gridSize) (hwz : wz < gridSize)
    (hocc : cell3 p wx wy wz = 1)
    (e1 : (x : Int) + f.normal.1 = (wx : Int))
    (e2 : (y : Int) + f.normal.2.1 = (wy : Int))
    (e3 : (z : Int) + f.normal.2.2 = (wz : Int)) :
    isNaturallyExposed p x y z f = false := by
  simp only [isNaturallyExposed]
  rw [e1, e2, e3, cell3I_of_nonneg p (by omega) (by omega) (by omega)]
  have t1 : ((wx : Int)).toNat = wx := by omega
  have t2 : ((wy : Int)).toNat = wy := by omega
  have t3 : ((wz : Int)).toNat = wz := by omega
  rw [t1, t2, t3, hocc]
  have d1 : decide ((wx : Int) < 0) = false := decide_eq_false (by omega)
  have d2 : decide ((gridSize : Int) ≤ (wx : Int)) = false := decide_eq_false (by omega)
  have d3 : decide ((wy : Int) < 0) = false := decide_eq_false (by omega)
  have d4 : decide ((gridSize : Int) ≤ (wy : Int)) = false := decide_eq_false (by omega)
  have d5 : decide ((wz : Int) < 0) = false := decide_eq_false (by omega)
  have d6 : decide ((gridSize : Int) ≤ (wz : Int)) = false := decide_eq_false (by omega)
  rw [d1, d2, d3, d4, d5, d6]
  rfl

theorem isNaturallyExposed_true_of_uniq (p : PolyCube) (vx vy vz : Nat)
    (hv : vx < gridSize ∧ vy < gridSize ∧ vz < gridSize)
    (huniq : ∀ x : Nat, x < gridSize → ∀ y : Nat, y < gridSize → ∀ z : Nat, z < gridSize →
      (cell3 p x y z = 1 ↔ (x, y, z) = (vx, vy, vz)))
    (f : FaceDefinition)
    (hne : ¬ ((vx : Int) + f.normal.1 = (vx : Int) ∧
      (vy : Int) + f.normal.2.1 = (vy : Int) ∧ (vz : Int) + f.normal.2.2 = (vz : Int))) :
    isNaturallyExposed p vx vy vz f = true := by
  simp only [isNaturallyExposed, Bool.or_eq_true, decide_eq_true_eq, bne_iff_ne]
  by_cases h1 : (vx : Int) + f.normal.1 < 0
  · tauto
  by_cases h2 : (gridSize : Int) ≤ (vx : Int) + f.normal.1
  · tauto
  by_cases h3 : (vy : Int) + f.normal.2.1 < 0
  · tauto
  by_cases h4 : (gridSize : Int) ≤ (vy : Int) + f.normal.2.1
  · tauto
  by_cases h5 : (vz : Int) + f.normal.2.2 < 0
  · tauto
  by_cases h6 : (gridSize : Int) ≤ (vz : Int) + f.normal.2.2
  · tauto
  refine Or.inr ?_
  rw [cell3I_of_nonneg p (by omega) (by omega) (by omega)]
  intro hcontr
  have heq := (huniq _ (by omega) _ (by omega) _ (by omega)).mp hcontr
  simp only [Prod.mk.injEq] at heq
  exact hne ⟨by omega, by omega, by omega⟩

theorem faceDotView_at_zero (f : FaceDefinition) :
    faceDotView f 0 0 =
      ((f.normal.1 : ℝ) + (f.normal.2.1 : ℝ) + (f.normal.2.2 : ℝ)) / 2 := by
  simp only [faceDotView, rotateVector, applyRotation, viewDirectionVector,
    Real.cos_zero, Real.sin_zero]
  norm_num
  ring

/-- C6: for any polyCube holding two occupied in-grid voxels that are
face-adjacent, the shared face (the face of each voxel whose local normal
points at the other voxel) is never emitted for either voxel at any rotation:
the occlusion test on the unrotated neighbor cell rejects it before the
camera-facing test matters. -/
theorem c6_shared_face_never_emitted (p : PolyCube) (vx vy vz wx wy wz : Nat)
    (f g : FaceDefinition)
    (hv : vx < gridSize ∧ vy < gridSize ∧ vz < gridSize)
    (hw : wx < gridSize ∧ wy < gridSize ∧ wz < gridSize)
    (hoccv : cell3 p vx vy vz = 1) (hoccw : cell3 p wx wy wz = 1)
    (hf : f ∈ UNIT_CUBE_FACES) (hg : g ∈ UNIT_CUBE_FACES)
    (hfw : (vx : Int) + f.normal.1 = (wx : Int) ∧
      (vy : Int) + f.normal.2.1 = (wy : Int) ∧ (vz : Int) + f.normal.2.2 = (wz : Int))
    (hgv : (wx : Int) + g.normal.1 = (vx : Int) ∧
      (wy : Int) + g.normal.2.1 = (vy : Int) ∧ (wz : Int) + g.normal.2.2 = (vz : Int)) :
    ∀ rotX rotY : ℝ,
      ¬ faceEmitted p vx vy vz f rotX rotY ∧ ¬ faceEmitted p wx wy wz g rotX rotY := by
  intro rotX rotY
  constructor
  · rintro ⟨hexp, _⟩
    rw [isNaturallyExposed_false p vx vy vz wx wy wz f hw.1 hw.2.1 hw.2.2 hoccw
      hfw.1 hfw.2.1 hfw.2.2] at hexp
    cases hexp
  · rintro ⟨hexp, _⟩
    rw [isNaturallyExposed_false p wx wy wz vx vy vz g hv.1 hv.2.1 hv.2.2 hoccv
      hgv.1 hgv.2.1 hgv.2.2] at hexp
    cases hexp

/-- C6 witness: the two-voxel bar `[[[1]], [[1]]]` (voxels (0,0,0) and
(1,0,0)); the +x face of the first and the -x face of the second are not
emitted at rotation (0, 0). -/
theorem c6_shared_face_witness :
    ¬ faceEmitted [[[1]], [[1]]] 0 0 0 faceRight (0 : ℝ) (0 : ℝ) ∧
      ¬ faceEmitted [[[1]], [[1]]] 1 0 0 faceLeft (0 : ℝ) (0 : ℝ) :=
  c6_shared_face_never_emitted [[[1]], [[1]]] 0 0 0 1 0 0 faceRight faceLeft
    (by decide) (by decide) (by decide) (by decide) (by decide) (by decide)
    (by decide) (by decide) 0 0

/-- C7: for a polyCube whose only occupied in-grid voxel is (vx, vy, vz),
every one of the six faces passes the occlusion test (no neighbors exist),
and at rotation (0, 0) exactly the top (+y), front (+z) and right (+x) faces
are emitted while bottom, back and left are rejected by the camera-facing
dot-product test. -/
theorem c7_single_voxel_three_faces (p : PolyCube) (vx vy vz : Nat)
    (hv : vx < gridSize ∧ vy < gridSize ∧ vz < gridSize)
    (huniq : ∀ x : Nat, x < gridSize → ∀ y : Nat, y < gridSize → ∀ z : Nat, z < gridSize →
      (cell3 p x y z = 1 ↔ (x, y, z) = (vx, vy, vz))) :
    (∀ f ∈ UNIT_CUBE_FACES, isNaturallyExposed p vx vy vz f = true) ∧
      faceEmitted p vx vy vz faceTop 0 0 ∧
      ¬ faceEmitted p vx vy vz faceBottom 0 0 ∧
      faceEmitted p vx vy vz faceFront 0 0 ∧
      ¬ faceEmitted p vx vy vz faceBack 0 0 ∧
      faceEmitted p vx vy vz faceRight 0 0 ∧
      ¬ faceEmitted p vx vy vz faceLeft 0 0 := by
  have hexp : ∀ f ∈ UNIT_CUBE_FACES, isNaturallyExposed p vx vy vz f = true := by
    intro f hf
    simp only [UNIT_CUBE_FACES, List.mem_cons, List.not_mem_nil, or_false] at hf
    rcases hf with rfl | rfl | rfl | rfl | rfl | rfl <;>
      (apply isNaturallyExposed_true_of_uniq p vx vy vz hv huniq ;
       simp only [faceTop, faceBottom, faceFront, faceBack, faceRight, faceLeft] ;
       omega)
  refine ⟨hexp, ?_, ?_, ?_, ?_, ?_, ?_⟩
  · refine ⟨hexp faceTop (by simp [UNIT_CUBE_FACES]), ?_⟩
    rw [faceDotView_at_zero]
    norm_num [faceTop]
  · rintro ⟨_, hdot⟩
    rw [faceDotView_at_zero] at hdot
    norm_num [faceBottom] at hdot
  · refine ⟨hexp faceFront (by simp [UNIT_CUBE_FACES]), ?_⟩
    rw [faceDotView_at_zero]
    norm_num [faceFront]
  · rintro ⟨_, hdot⟩
    rw [faceDotView_at_zero] at hdot
    norm_num [faceBack] at hdot
  · refine ⟨hexp faceRight (by simp [UNIT_CUBE_FACES]), ?_⟩
    rw [faceDotView_at_zero]
    norm_num [faceRight]
  · rintro ⟨_, hdot⟩
    rw [faceDotView_at_zero] at hdot
    norm_num [faceLeft] at hdot

set_option maxRecDepth 40000 in
/-- C7 witness: the single-voxel cube `[[[1]]]` at rotation (0, 0). -/
theorem c7_single_voxel_witness :
    (∀ f ∈ UNIT_CUBE_FACES, isNaturallyExposed [[[1]]] 0 0 0 f = true) ∧
      faceEmitted [[[1]]] 0 0 0 faceTop 0 0 ∧
      ¬ faceEmitted [[[1]]] 0 0 0 faceBottom 0 0 ∧
      faceEmitted [[[1]]] 0 0 0 faceFront 0 0 ∧
      ¬ faceEmitted [[[1]]] 0 0 0 faceBack 0 0 ∧
      faceEmitted [[[1]]] 0 0 0 faceRight 0 0 ∧
      ¬ faceEmitted [[[1]]] 0 0 0 faceLeft 0 0 :=
  c7_single_voxel_three_faces [[[1]]] 0 0 0 (by decide) (by decide)

theorem length_insertByY (a : ICoord) (l : List ICoord) :
    (insertByY a l).length = l.length + 1 := by
  induction l with
  | nil => rfl
  | cons b t ih =>
    rw [insertByY]
    split
    · simp only [List.length_cons, ih]
    · simp only [List.length_cons]

theorem mem_insertByY (x a : ICoord) (l : List ICoord) :
    x ∈ insertByY a l ↔ x = a ∨ x ∈ l := by
  induction l with
  | nil => simp [insertByY]
  | cons b t ih =>
    rw [insertByY]
    split
    · simp only [List.mem_cons, ih]
      tauto
    · simp only [List.mem_cons]

theorem length_sortByYDesc (l : List ICoord) : (sortByYDesc l).length = l.length := by
  induction l with
  | nil => rfl
  | cons a t ih => rw [sortByYDesc, length_insertByY, ih, List.length_cons]

theorem mem_sortByYDesc (x : ICoord) (l : List ICoord) :
    x ∈ sortByYDesc l ↔ x ∈ l := by
  induction l with
  | nil => simp [sortByYDesc]
  | cons a t ih =>
    rw [sortByYDesc, mem_insertByY]
    simp [ih]

theorem inBoundsB_iff (c : ICoord) :
    inBoundsB c = true ↔ 0 ≤ c.1 ∧ c.1 < (gridSize : Int) ∧ 0 ≤ c.2.1 ∧
      c.2.1 < (gridSize : Int) ∧ 0 ≤ c.2.2 ∧ c.2.2 < (gridSize : Int) := by
  simp [inBoundsB, and_assoc]

theorem mem_deltaFold (ds placed : List ICoord) (b : ICoord) :
    ∀ (acc : List ICoord) (x : ICoord),
    x ∈ ds.foldl (fun acc2 d =>
        let n := addC b d
        if inBoundsB n ∧ n ∉ placed ∧ n ∉ acc2 then acc2 ++ [n] else acc2) acc →
    x ∈ acc ∨ (inBoundsB x = true ∧ x ∉ placed ∧ ∃ d ∈ ds, x = addC b d) := by
  induction ds with
  | nil =>
    intro acc x hx
    exact Or.inl hx
  | cons d t ih =>
    intro acc x hx
    rw [List.foldl_cons] at hx
    rcases ih _ x hx with hacc | hprop
    · have hacc2 : x ∈ (if inBoundsB (addC b d) ∧ addC b d ∉ placed ∧ addC b d ∉ acc
          then acc ++ [addC b d] else acc) := hacc
      by_cases hcond : inBoundsB (addC b d) ∧ addC b d ∉ placed ∧ addC b d ∉ acc
      · rw [if_pos hcond] at hacc2
        rcases List.mem_append.mp hacc2 with h | h
        · exact Or.inl h
        · rcases List.mem_singleton.mp h with rfl
          exact Or.inr ⟨hcond.1, hcond.2.1, d, by simp, rfl⟩
      · rw [if_neg hcond] at hacc2
        exact Or.inl hacc2
    · obtain ⟨hb, hp, d2, hd2, heq⟩ := hprop
      exact Or.inr ⟨hb, hp, d2, List.mem_cons_of_mem _ hd2, heq⟩

theorem mem_candStep (placed acc : List ICoord) (b x : ICoord)
    (hx : x ∈ candStep placed acc b) :
    x ∈ acc ∨ (inBoundsB x = true ∧ x ∉ placed ∧ ∃ d ∈ neighborDeltas, x = addC b d) :=
  mem_deltaFold neighborDeltas placed b acc x hx

theorem mem_potentialPoints_aux (l placed : List ICoord) :
    ∀ (acc : List ICoord) (x : ICoord),
    x ∈ l.foldl (candStep placed) acc →
    x ∈ acc ∨ (inBoundsB x = true ∧ x ∉ placed ∧
      ∃ b ∈ l, ∃ d ∈ neighborDeltas, x = addC b d) := by
  induction l with
  | nil =>
    intro acc x hx
    exact Or.inl hx
  | cons b t ih =>
    intro acc x hx
    rw [List.foldl_cons] at hx
    rcases ih _ x hx with hacc | hprop
    · rcases mem_candStep placed acc b x hacc with h | ⟨hb, hp, d, hd, heq⟩
      · exact Or.inl h
      · exact Or.inr ⟨hb, hp, b, by simp, d, hd, heq⟩
    · obtain ⟨hb, hp, b2, hb2, rest⟩ := hprop
      exact Or.inr ⟨hb, hp, b2, List.mem_cons_of_mem _ hb2, rest⟩

theorem mem_potentialPoints (bs : List ICoord) (x : ICoord)
    (hx : x ∈ potentialPoints bs) :
    inBoundsB x = true ∧ x ∉ bs ∧ ∃ b ∈ bs, ∃ d ∈ neighborDeltas, x = addC b d := by
  rcases mem_potentialPoints_aux bs bs [] x hx with h | h
  · cases h
  · exact h

theorem deltaFold_mono (ds placed : List ICoord) (b : ICoord) :
    ∀ (acc : List ICoord) (x : ICoord), x ∈ acc →
    x ∈ ds.foldl (fun acc2 d =>
        let n := addC b d
        if inBoundsB n ∧ n ∉ placed ∧ n ∉ acc2 then acc2 ++ [n] else acc2) acc := by
  induction ds with
  | nil =>
    intro acc x hx
    exact hx
  | cons d t ih =>
    intro acc x hx
    rw [List.foldl_cons]
    apply ih
    have hstep : x ∈ (if inBoundsB (addC b d) ∧ addC b d ∉ placed ∧ addC b d ∉ acc
        then acc ++ [addC b d] else acc) := by
      split
      · exact List.mem_append_left _ hx
      · exact hx
    exact hstep

theorem mem_deltaFold_of (ds placed : List ICoord) (b : ICoord) :
    ∀ (acc : List ICoord) (d : ICoord), d ∈ ds →
    inBoundsB (addC b d) = true → addC b d ∉ placed →
    addC b d ∈ ds.foldl (fun acc2 d2 =>
        let n := addC b d2
        if inBoundsB n ∧ n ∉ placed ∧ n ∉ acc2 then acc2 ++ [n] else acc2) acc := by
  induction ds with
  | nil =>
    intro acc d hd
    cases hd
  | cons d0 t ih =>
    intro acc d hd hbnd hpl
    rw [List.foldl_cons]
    rcases List.mem_cons.mp hd with rfl | hdt
    · apply deltaFold_mono
      have hstep : addC b d ∈ (if inBoundsB (addC b d) ∧ addC b d ∉ placed ∧ addC b d ∉ acc
          then acc ++ [addC b d] else acc) := by
        by_cases hacc : addC b d ∈ acc
        · split
          · exact List.mem_append_left _ hacc
          · exact hacc
        · rw [if_pos ⟨hbnd, hpl, hacc⟩]
          exact List.mem_append_right _ (by simp)
      exact hstep
    · exact ih _ d hdt hbnd hpl

theorem candStep_mono (placed acc : List ICoord) (b x : ICoord) (hx : x ∈ acc) :
    x ∈ candStep placed acc b :=
  deltaFold_mono neighborDeltas placed b acc x hx

theorem mem_candStep_of (placed acc : List ICoord) (b x : ICoord)
    (hbnd : inBoundsB x = true) (hpl : x ∉ placed)
    (hd : ∃ d ∈ neighborDeltas, x = addC b d) : x ∈ candStep placed acc b := by
  obtain ⟨d, hd1, rfl⟩ := hd
  exact mem_deltaFold_of neighborDeltas placed b acc d hd1 hbnd hpl

theorem foldl_candStep_mono (l placed : List ICoord) :
    ∀ (acc : List ICoord) (x : ICoord), x ∈ acc → x ∈ l.foldl (candStep placed) acc := by
  induction l with
  | nil =>
    intro acc x hx
    exact hx
  | cons b t ih =>
    intro acc x hx
    exact ih _ x (candStep_mono placed acc b x hx)

theorem mem_potentialPoints_of (bs : List ICoord) (x : ICoord)
    (hbnd : inBoundsB x = true) (hpl : x ∉ bs)
    (hex : ∃ b ∈ bs, ∃ d ∈ neighborDeltas, x = addC b d) :
    x ∈ potentialPoints bs := by
  obtain ⟨b, hbmem, hd⟩ := hex
  unfold potentialPoints
  have haux : ∀ (l : List ICoord) (acc : List ICoord), b ∈ l →
      x ∈ l.foldl (candStep bs) acc := by
    intro l
    induction l with
    | nil =>
      intro acc hb
      cases hb
    | cons b0 t ih =>
      intro acc hb
      rw [List.foldl_cons]
      rcases List.mem_cons.mp hb with rfl | hbt
      · exact foldl_candStep_mono t bs _ x (mem_candStep_of bs acc b x hbnd hpl hd)
      · exact ih _ hbt
  exact haux bs [] hbmem

theorem adjI_addC (b d : ICoord) (hd : d ∈ neighborDeltas) : adjI b (addC b d) := by
  simp only [neighborDeltas, List.mem_cons, List.not_mem_nil, or_false] at hd
  obtain ⟨b1, b2, b3⟩ := b
  rcases hd with rfl | rfl | rfl | rfl | rfl | rfl <;>
    (dsimp only [adjI, addC] ; omega)

theorem adjI_symm (a b : ICoord) (h : adjI a b) : adjI b a := by
  simp only [adjI] at h ⊢
  omega

theorem connI_extend (bs : List ICoord) (nb : ICoord) (hconn : ConnI bs)
    (hadj : ∃ m ∈ bs, adjI m nb) : ConnI (bs ++ [nb]) := by
  intro a ha b hb
  have hmono : ∀ u v : ICoord, (u ∈ bs ∧ v ∈ bs ∧ adjI u v) →
      (u ∈ bs ++ [nb] ∧ v ∈ bs ++ [nb] ∧ adjI u v) := by
    rintro u v ⟨h1, h2, h3⟩
    exact ⟨List.mem_append_left _ h1, List.mem_append_left _ h2, h3⟩
  obtain ⟨m, hm, hmadj⟩ := hadj
  rcases List.mem_append.mp ha with ha2 | ha2
  · rcases List.mem_append.mp hb with hb2 | hb2
    · exact (hconn a ha2 b hb2).mono hmono
    · rcases List.mem_singleton.mp hb2 with rfl
      refine Relation.ReflTransGen.tail ((hconn a ha2 m hm).mono hmono) ?_
      exact ⟨List.mem_append_left _ hm, List.mem_append_right _ (by simp), hmadj⟩
  · rcases List.mem_singleton.mp ha2 with rfl
    rcases List.mem_append.mp hb with hb2 | hb2
    · refine Relation.ReflTransGen.head ?_ ((hconn m hm b hb2).mono hmono)
      exact ⟨List.mem_append_right _ (by simp), List.mem_append_left _ hm,
        adjI_symm m a hmadj⟩
    · rcases List.mem_singleton.mp hb2 with rfl
      exact Relation.ReflTransGen.refl

theorem growStep_some_inv (bs : List ICoord) (rs : RandSrc) (bs2 : List ICoord)
    (rs2 : RandSrc) (hinv : GrowInv bs)
    (h : growStep bs rs = some (bs2, rs2)) :
    GrowInv bs2 ∧ bs2.length = bs.length + 1 := by
  obtain ⟨hne, hb, hnd, hconn⟩ := hinv
  simp only [growStep] at h
  by_cases hpp : potentialPoints bs = []
  · rw [if_pos hpp] at h
    cases h
  · rw [if_neg hpp] at h
    simp only [Option.some.injEq, Prod.mk.injEq] at h
    obtain ⟨h1, h2⟩ := h
    have hlen : (potentialPoints bs).length ≥ 1 :=
      List.length_pos.mpr hpp
    have hidx : (draw rs (min (potentialPoints bs).length 5)).1 <
        (potentialPoints bs).length := by
      have hmin : 1 ≤ min (potentialPoints bs).length 5 := by omega
      have hmod := Nat.mod_lt (rs.headD 0) hmin
      simp only [draw]
      omega
    set nb := (sortByYDesc (potentialPoints bs)).getD
      (draw rs (min (potentialPoints bs).length 5)).1 (0, 0, 0) with hnb
    have hnbmem : nb ∈ potentialPoints bs := by
      rw [← mem_sortByYDesc]
      exact getD_mem_of_lt _ _ _ (by rw [length_sortByYDesc]; exact hidx)
    obtain ⟨hnbbnd, hnbnot, b0, hb0, d0, hd0, hnbeq⟩ := mem_potentialPoints bs nb hnbmem
    subst h1
    refine ⟨⟨by simp, ?_, ?_, ?_⟩, by simp⟩
    · intro c hc
      rcases List.mem_append.mp hc with h | h
      · exact hb c h
      · rcases List.mem_singleton.mp h with rfl
        exact hnbbnd
    · rw [List.nodup_append]
      refine ⟨hnd, List.nodup_singleton _, ?_⟩
      intro a ha ha2
      rcases List.mem_singleton.mp ha2 with rfl
      exact hnbnot ha
    · apply connI_extend bs nb hconn
      exact ⟨b0, hb0, hnbeq ▸ adjI_addC b0 d0 hd0⟩

theorem growLoop_inv (steps : Nat) :
    ∀ (bs : List ICoord) (rs : RandSrc), GrowInv bs →
    GrowInv (growLoop steps bs rs).1 ∧
      (growLoop steps bs rs).1.length ≤ bs.length + steps := by
  induction steps with
  | zero =>
    intro bs rs hinv
    exact ⟨hinv, by simp [growLoop]⟩
  | succ n ih =>
    intro bs rs hinv
    cases hstep : growStep bs rs with
    | none =>
      simp only [growLoop, hstep]
      exact ⟨hinv, by omega⟩
    | some pr =>
      obtain ⟨bs2, rs2⟩ := pr
      obtain ⟨hinv2, hlen⟩ := growStep_some_inv bs rs bs2 rs2 hinv hstep
      have hih := ih bs2 rs2 hinv2
      simp only [growLoop, hstep]
      exact ⟨hih.1, by omega⟩

theorem potentialPoints_ne_nil (bs : List ICoord) (hinv : GrowInv bs)
    (hlen : bs.length ≤ 14) : potentialPoints bs ≠ [] := by
  obtain ⟨hne, hb, hnd, hconn⟩ := hinv
  intro hpp
  have hclosed : ∀ b ∈ bs, ∀ d ∈ neighborDeltas,
      inBoundsB (addC b d) = true → addC b d ∈ bs := by
    intro b hbmem d hd hbnd
    by_contra hnmem
    have hmem : addC b d ∈ potentialPoints bs :=
      mem_potentialPoints_of bs _ hbnd hnmem ⟨b, hbmem, d, hd, rfl⟩
    rw [hpp] at hmem
    cases hmem
  have hstep6 : ∀ b ∈ bs, ∀ d ∈ neighborDeltas,
      inBoundsB (addC b d) = true → addC b d ∈ bs := hclosed
  -- walk along the x axis, upward and downward
  have hlineXup : ∀ n : Nat, ∀ b ∈ bs, inBoundsB b = true →
      b.1 + (n : Int) < (gridSize : Int) →
      ((b.1 + (n : Int), b.2.1, b.2.2) : ICoord) ∈ bs := by
    intro n
    induction n with
    | zero =>
      intro b hbm hbnd _
      simp only [Nat.cast_zero, add_zero]
      exact hbm
    | succ n ih =>
      intro b hbm hbnd hlt
      have hprev : ((b.1 + (n : Int), b.2.1, b.2.2) : ICoord) ∈ bs :=
        ih b hbm hbnd (by omega)
      have hbnd2 : inBoundsB (addC (b.1 + (n : Int), b.2.1, b.2.2) (1, 0, 0)) = true := by
        rw [inBoundsB_iff] at hbnd ⊢
        dsimp only [addC]
        refine ⟨by omega, by omega, by omega, by omega, by omega, by omega⟩
      have hmem := hclosed _ hprev (1, 0, 0) (by simp [neighborDeltas]) hbnd2
      have heq : addC (b.1 + (n : Int), b.2.1, b.2.2) (1, 0, 0) =
          ((b.1 + ((n + 1 : Nat) : Int), b.2.1, b.2.2) : ICoord) := by
        dsimp only [addC]
        refine Prod.ext (by push_cast; ring) (Prod.ext (by ring) (by ring))
      rw [heq] at hmem
      exact hmem
  have hlineXdown : ∀ n : Nat, ∀ b ∈ bs, inBoundsB b = true →
      0 ≤ b.1 - (n : Int) →
      ((b.1 - (n : Int), b.2.1, b.2.2) : ICoord) ∈ bs := by
    intro n
    induction n with
    | zero =>
      intro b hbm hbnd _
      simp only [Nat.cast_zero, sub_zero]
      exact hbm
    | succ n ih =>
      intro b hbm hbnd hge
      have hprev : ((b.1 - (n : Int), b.2.1, b.2.2) : ICoord) ∈ bs :=
        ih b hbm hbnd (by omega)
      have hbnd2 : inBoundsB (addC (b.1 - (n : Int), b.2.1, b.2.2) (-1, 0, 0)) = true := by
        rw [inBoundsB_iff] at hbnd ⊢
        dsimp only [addC]
        refine ⟨by omega, by omega, by omega, by omega, by omega, by omega⟩
      have hmem := hclosed _ hprev (-1, 0, 0) (by simp [neighborDeltas]) hbnd2
      have heq : addC (b.1 - (n : Int), b.2.1, b.2.2) (-1, 0, 0) =
          ((b.1 - ((n + 1 : Nat) : Int), b.2.1, b.2.2) : ICoord) := by
        dsimp only [addC]
        refine Prod.ext (by push_cast; ring) (Prod.ext (by ring) (by ring))
      rw [heq] at hmem
      exact hmem
  have hlineX : ∀ b ∈ bs, ∀ x2 : Int, 0 ≤ x2 → x2 < (gridSize : Int) →
      ((x2, b.2.1, b.2.2) : ICoord) ∈ bs := by
    intro b hbm x2 h0 h8
    have hbnd := hb b hbm
    rcases le_or_lt b.1 x2 with hle | hlt
    · have hmem := hlineXup (x2 - b.1).toNat b hbm hbnd (by omega)
      have heq : ((b.1 + (((x2 - b.1).toNat : Nat) : Int), b.2.1, b.2.2) : ICoord) =
          ((x2, b.2.1, b.2.2) : ICoord) :=
        Prod.ext (by omega) rfl
      rw [heq] at hmem
      exact hmem
    · have hmem := hlineXdown (b.1 - x2).toNat b hbm hbnd (by omega)
      have heq : ((b.1 - (((b.1 - x2).toNat : Nat) : Int), b.2.1, b.2.2) : ICoord) =
          ((x2, b.2.1, b.2.2) : ICoord) :=
        Prod.ext (by omega) rfl
      rw [heq] at hmem
      exact hmem
  -- same construction along y and z
  have hlineYup : ∀ n : Nat, ∀ b ∈ bs, inBoundsB b = true →
      b.2.1 + (n : Int) < (gridSize : Int) →
      ((b.1, b.2.1 + (n : Int), b.2.2) : ICoord) ∈ bs := by
    intro n
    induction n with
    | zero =>
      intro b hbm hbnd _
      simp only [Nat.cast_zero, add_zero]
      exact hbm
    | succ n ih =>
      intro b hbm hbnd hlt
      have hprev : ((b.1, b.2.1 + (n : Int), b.2.2) : ICoord) ∈ bs :=
        ih b hbm hbnd (by omega)
      have hbnd2 : inBoundsB (addC (b.1, b.2.1 + (n : Int), b.2.2) (0, 1, 0)) = true := by
        rw [inBoundsB_iff] at hbnd ⊢
        dsimp only [addC]
        refine ⟨by omega, by omega, by omega, by omega, by omega, by omega⟩
      have hmem := hclosed _ hprev (0, 1, 0) (by simp [neighborDeltas]) hbnd2
      have heq : addC (b.1, b.2.1 + (n : Int), b.2.2) (0, 1, 0) =
          ((b.1, b.2.1 + ((n + 1 : Nat) : Int), b.2.2) : ICoord) := by
        dsimp only [addC]
        refine Prod.ext (by ring) (Prod.ext (by push_cast; ring) (by ring))
      rw [heq] at hmem
      exact hmem
  have hlineYdown : ∀ n : Nat, ∀ b ∈ bs, inBoundsB b = true →
      0 ≤ b.2.1 - (n : Int) →
      ((b.1, b.2.1 - (n : Int), b.2.2) : ICoord) ∈ bs := by
    intro n
    induction n with
    | zero =>
      intro b hbm hbnd _
      simp only [Nat.cast_zero, sub_zero]
      exact hbm
    | succ n ih =>
      intro b hbm hbnd hge
      have hprev : ((b.1, b.2.1 - (n : Int), b.2.2) : ICoord) ∈ bs :=
        ih b hbm hbnd (by omega)
      have hbnd2 : inBoundsB (addC (b.1, b.2.1 - (n : Int), b.2.2) (0, -1, 0)) = true := by
        rw [inBoundsB_iff] at hbnd ⊢
        dsimp only [addC]
        refine ⟨by omega, by omega, by omega, by omega, by omega, by omega⟩
      have hmem := hclosed _ hprev (0, -1, 0) (by simp [neighborDeltas]) hbnd2
      have heq : addC (b.1, b.2.1 - (n : Int), b.2.2) (0, -1, 0) =
          ((b.1, b.2.1 - ((n + 1 : Nat) : Int), b.2.2) : ICoord) := by
        dsimp only [addC]
        refine Prod.ext (by ring) (Prod.ext (by push_cast; ring) (by ring))
      rw [heq] at hmem
      exact hmem
  have hlineY : ∀ b ∈ bs, ∀ y2 : Int, 0 ≤ y2 → y2 < (gridSize : Int) →
      ((b.1, y2, b.2.2) : ICoord) ∈ bs := by
    intro b hbm y2 h0 h8
    have hbnd := hb b hbm
    rcases le_or_lt b.2.1 y2 with hle | hlt
    · have hmem := hlineYup (y2 - b.2.1).toNat b hbm hbnd (by omega)
      have heq : ((b.1, b.2.1 + (((y2 - b.2.1).toNat : Nat) : Int), b.2.2) : ICoord) =
          ((b.1, y2, b.2.2) : ICoord) :=
        Prod.ext rfl (Prod.ext
          (show b.2.1 + (((y2 - b.2.1).toNat : Nat) : Int) = y2 by omega) rfl)
      rw [heq] at hmem
      exact hmem
    · have hmem := hlineYdown (b.2.1 - y2).toNat b hbm hbnd (by omega)
      have heq : ((b.1, b.2.1 - (((b.2.1 - y2).toNat : Nat) : Int), b.2.2) : ICoord) =
          ((b.1, y2, b.2.2) : ICoord) :=
        Prod.ext rfl (Prod.ext
          (show b.2.1 - (((b.2.1 - y2).toNat : Nat) : Int) = y2 by omega) rfl)
      rw [heq] at hmem
      exact hmem
  have hlineZup : ∀ n : Nat, ∀ b ∈ bs, inBoundsB b = true →
      b.2.2 + (n : Int) < (gridSize : Int) →
      ((b.1, b.2.1, b.2.2 + (n : Int)) : ICoord) ∈ bs := by
    intro n
    induction n with
    | zero =>
      intro b hbm hbnd _
      simp only [Nat.cast_zero, add_zero]
      exact hbm
    | succ n ih =>
      intro b hbm hbnd hlt
      have hprev : ((b.1, b.2.1, b.2.2 + (n : Int)) : ICoord) ∈ bs :=
        ih b hbm hbnd (by omega)
      have hbnd2 : inBoundsB (addC (b.1, b.2.1, b.2.2 + (n : Int)) (0, 0, 1)) = true := by
        rw [inBoundsB_iff] at hbnd ⊢
        dsimp only [addC]
        refine ⟨by omega, by omega, by omega, by omega, by omega, by omega⟩
      have hmem := hclosed _ hprev (0, 0, 1) (by simp [neighborDeltas]) hbnd2
      have heq : addC (b.1, b.2.1, b.2.2 + (n : Int)) (0, 0, 1) =
          ((b.1, b.2.1, b.2.2 + ((n + 1 : Nat) : Int)) : ICoord) := by
        dsimp only [addC]
        refine Prod.ext (by ring) (Prod.ext (by ring) (by push_cast; ring))
      rw [heq] at hmem
      exact hmem
  have hlineZdown : ∀ n : Nat, ∀ b ∈ bs, inBoundsB b = true →
      0 ≤ b.2.2 - (n : Int) →
      ((b.1, b.2.1, b.2.2 - (n : Int)) : ICoord) ∈ bs := by
    intro n
    induction n with
    | zero =>
      intro b hbm hbnd _
      simp only [Nat.cast_zero, sub_zero]
      exact hbm
    | succ n ih =>
      intro b hbm hbnd hge
      have hprev : ((b.1, b.2.1, b.2.2 - (n : Int)) : ICoord) ∈ bs :=
        ih b hbm hbnd (by omega)
      have hbnd2 : inBoundsB (addC (b.1, b.2.1, b.2.2 - (n : Int)) (0, 0, -1)) = true := by
        rw [inBoundsB_iff] at hbnd ⊢
        dsimp only [addC]
        refine ⟨by omega, by omega, by omega, by omega, by omega, by omega⟩
      have hmem := hclosed _ hprev (0, 0, -1) (by simp [neighborDeltas]) hbnd2
      have heq : addC (b.1, b.2.1, b.2.2 - (n : Int)) (0, 0, -1) =
          ((b.1, b.2.1, b.2.2 - ((n + 1 : Nat) : Int)) : ICoord) := by
        dsimp only [addC]
        refine Prod.ext (by ring) (Prod.ext (by ring) (by push_cast; ring))
      rw [heq] at hmem
      exact hmem
  have hlineZ : ∀ b ∈ bs, ∀ z2 : Int, 0 ≤ z2 → z2 < (gridSize : Int) →
      ((b.1, b.2.1, z2) : ICoord) ∈ bs := by
    intro b hbm z2 h0 h8
    have hbnd := hb b hbm
    rcases le_or_lt b.2.2 z2 with hle | hlt
    · have hmem := hlineZup (z2 - b.2.2).toNat b hbm hbnd (by omega)
      have heq : ((b.1, b.2.1, b.2.2 + (((z2 - b.2.2).toNat : Nat) : Int)) : ICoord) =
          ((b.1, b.2.1, z2) : ICoord) :=
        Prod.ext rfl (Prod.ext rfl
          (show b.2.2 + (((z2 - b.2.2).toNat : Nat) : Int) = z2 by omega))
      rw [heq] at hmem
      exact hmem
    · have hmem := hlineZdown (b.2.2 - z2).toNat b hbm hbnd (by omega)
      have heq : ((b.1, b.2.1, b.2.2 - (((b.2.2 - z2).toNat : Nat) : Int)) : ICoord) =
          ((b.1, b.2.1, z2) : ICoord) :=
        Prod.ext rfl (Prod.ext rfl
          (show b.2.2 - (((b.2.2 - z2).toNat : Nat) : Int) = z2 by omega))
      rw [heq] at hmem
      exact hmem
  have hall : ∀ c : ICoord, inBoundsB c = true → c ∈ bs := by
    intro c hc
    obtain ⟨s, hs⟩ := List.exists_mem_of_ne_nil bs hne
    rw [inBoundsB_iff] at hc
    have h1 : ((c.1, s.2.1, s.2.2) : ICoord) ∈ bs :=
      hlineX s hs c.1 hc.1 hc.2.1
    have h2 : ((c.1, c.2.1, s.2.2) : ICoord) ∈ bs :=
      hlineY _ h1 c.2.1 hc.2.2.1 hc.2.2.2.1
    have h3 : ((c.1, c.2.1, c.2.2) : ICoord) ∈ bs :=
      hlineZ _ h2 c.2.2 hc.2.2.2.2.1 hc.2.2.2.2.2
    exact h3
  have hdec : ∀ c ∈ probeCells, inBoundsB c = true := by decide
  have hsub : probeCells ⊆ bs := fun c hc => hall c (hdec c hc)
  have hnodup : probeCells.Nodup := by decide
  have h15 : probeCells.length = 15 := by decide
  have hle := (List.subperm_of_subset hnodup hsub).length_le
  omega

theorem growLoop_exact (steps : Nat) :
    ∀ (bs : List ICoord) (rs : RandSrc), GrowInv bs → bs.length + steps ≤ 15 →
    GrowInv (growLoop steps bs rs).1 ∧
      (growLoop steps bs rs).1.length = bs.length + steps := by
  induction steps with
  | zero =>
    intro bs rs hinv _
    exact ⟨hinv, by simp [growLoop]⟩
  | succ n ih =>
    intro bs rs hinv hlen
    have hne := potentialPoints_ne_nil bs hinv (by omega)
    cases hstep : growStep bs rs with
    | none =>
      exfalso
      simp only [growStep] at hstep
      rw [if_neg hne] at hstep
      cases hstep
    | some pr =>
      obtain ⟨bs2, rs2⟩ := pr
      obtain ⟨hinv2, hlen2⟩ := growStep_some_inv bs rs bs2 rs2 hinv hstep
      have hih := ih bs2 rs2 hinv2 (by omega)
      simp only [growLoop, hstep]
      exact ⟨hih.1, by omega⟩

theorem inBoundsB_mk (x y z : Int) :
    inBoundsB (x, y, z) = true ↔ 0 ≤ x ∧ x < 8 ∧ 0 ≤ y ∧ y < 8 ∧ 0 ≤ z ∧ z < 8 := by
  have h8 : ((gridSize : Nat) : Int) = 8 := by decide
  rw [inBoundsB_iff, h8]

theorem length_eq_of_nodup_mem_iff {α : Type} (l1 l2 : List α)
    (h1 : l1.Nodup) (h2 : l2.Nodup) (h : ∀ x, x ∈ l1 ↔ x ∈ l2) :
    l1.length = l2.length :=
  Nat.le_antisymm
    (List.Subperm.length_le (List.subperm_of_subset h1 (fun x hx => (h x).mp hx)))
    (List.Subperm.length_le (List.subperm_of_subset h2 (fun x hx => (h x).mpr hx)))

theorem blocksOf_buildCube (l : List (Nat × Nat × Nat))
    (hl : ∀ b ∈ l, b.1 < gridSize ∧ b.2.1 < gridSize ∧ b.2.2 < gridSize)
    (b : Nat × Nat × Nat) : b ∈ blocksOf (buildCube l) ↔ b ∈ l := by
  rw [mem_blocksOf]
  constructor
  · rintro ⟨hbnd, hc⟩
    rw [cell3_buildCube l hl] at hc
    by_cases hm : ((b.1, b.2.1, b.2.2) : Nat × Nat × Nat) ∈ l
    · exact hm
    · rw [if_neg hm] at hc
      exact absurd hc (by decide)
  · intro hm
    refine ⟨hl b hm, ?_⟩
    rw [cell3_buildCube l hl, if_pos hm]

theorem blockCount_buildCube (l : List (Nat × Nat × Nat))
    (hl : ∀ b ∈ l, b.1 < gridSize ∧ b.2.1 < gridSize ∧ b.2.2 < gridSize)
    (hnd : l.Nodup) : blockCount (buildCube l) = l.length :=
  length_eq_of_nodup_mem_iff _ _ (nodup_blocksOf _) hnd
    (fun x => blocksOf_buildCube l hl x)

theorem normShift_injOn (p : PolyCube) (a : Nat × Nat × Nat) (ha : a ∈ blocksOf p)
    (b : Nat × Nat × Nat) (hb : b ∈ blocksOf p) (h : normShift p a = normShift p b) :
    a = b := by
  have hxa : minXof p ≤ a.1 := foldl_min_le_mem (blocksOf p) (fun c => c.1) gridSize a ha
  have hya : minYof p ≤ a.2.1 := foldl_min_le_mem (blocksOf p) (fun c => c.2.1) gridSize a ha
  have hza : minZof p ≤ a.2.2 := foldl_min_le_mem (blocksOf p) (fun c => c.2.2) gridSize a ha
  have hxb : minXof p ≤ b.1 := foldl_min_le_mem (blocksOf p) (fun c => c.1) gridSize b hb
  have hyb : minYof p ≤ b.2.1 := foldl_min_le_mem (blocksOf p) (fun c => c.2.1) gridSize b hb
  have hzb : minZof p ≤ b.2.2 := foldl_min_le_mem (blocksOf p) (fun c => c.2.2) gridSize b hb
  simp only [normShift, Prod.mk.injEq] at h
  exact Prod.ext (by omega) (Prod.ext (by omega) (by omega))

theorem blockCount_normalize (p : PolyCube) :
    blockCount (normalizePolyCube p) = blockCount p := by
  have hnd : ((blocksOf p).map (normShift p)).Nodup :=
    List.Nodup.map_on (fun a ha b hb h => normShift_injOn p a ha b hb h)
      (nodup_blocksOf p)
  have h1 : (blocksOf (normalizePolyCube p)).length =
      ((blocksOf p).map (normShift p)).length :=
    length_eq_of_nodup_mem_iff _ _ (nodup_blocksOf _) hnd
      (fun b => mem_blocksOf_normalize p b)
  show (blocksOf (normalizePolyCube p)).length = (blocksOf p).length
  rw [h1, List.length_map]

theorem toNatC_inj_on (a b : ICoord) (ha : inBoundsB a = true) (hb : inBoundsB b = true)
    (h : toNatC a = toNatC b) : a = b := by
  obtain ⟨a1, a2, a3⟩ := a
  obtain ⟨b1, b2, b3⟩ := b
  rw [inBoundsB_mk] at ha hb
  simp only [toNatC, Prod.mk.injEq] at h
  exact Prod.ext (show a1 = b1 by omega)
    (Prod.ext (show a2 = b2 by omega) (show a3 = b3 by omega))

theorem nodup_map_toNatC (bs : List ICoord) (hnd : bs.Nodup)
    (hb : ∀ c ∈ bs, inBoundsB c = true) : (bs.map toNatC).Nodup :=
  List.Nodup.map_on (fun a ha b hb2 h => toNatC_inj_on a b (hb a ha) (hb b hb2) h) hnd

theorem bounds_map_toNatC (bs : List ICoord) (hb : ∀ c ∈ bs, inBoundsB c = true) :
    ∀ b ∈ bs.map toNatC, b.1 < gridSize ∧ b.2.1 < gridSize ∧ b.2.2 < gridSize := by
  intro b hbm
  obtain ⟨c, hc, rfl⟩ := List.mem_map.mp hbm
  obtain ⟨c1, c2, c3⟩ := c
  have h := hb _ hc
  rw [inBoundsB_mk] at h
  simp only [toNatC]
  exact ⟨(by omega : c1.toNat < 8), (by omega : c2.toNat < 8), (by omega : c3.toNat < 8)⟩

theorem calculateDimensions_ok (p : PolyCube) (hne : blocksOf p ≠ []) :
    1 ≤ (calculateDimensions p).width ∧ (calculateDimensions p).width ≤ 8 ∧
    1 ≤ (calculateDimensions p).height ∧ (calculateDimensions p).height ≤ 8 ∧
    1 ≤ (calculateDimensions p).depth ∧ (calculateDimensions p).depth ≤ 8 := by
  obtain ⟨b, hb⟩ := List.exists_mem_of_ne_nil _ hne
  have hx1 : (b.1 : Int) ≤ maxXI p :=
    mem_le_foldl_max (blocksOf p) (fun c => (c.1 : Int)) (-1) b hb
  have hy1 : (b.2.1 : Int) ≤ maxYI p :=
    mem_le_foldl_max (blocksOf p) (fun c => (c.2.1 : Int)) (-1) b hb
  have hz1 : (b.2.2 : Int) ≤ maxZI p :=
    mem_le_foldl_max (blocksOf p) (fun c => (c.2.2 : Int)) (-1) b hb
  have hx2 : minXI p ≤ (b.1 : Int) :=
    foldl_min_le_mem (blocksOf p) (fun c => (c.1 : Int)) (gridSize : Int) b hb
  have hy2 : minYI p ≤ (b.2.1 : Int) :=
    foldl_min_le_mem (blocksOf p) (fun c => (c.2.1 : Int)) (gridSize : Int) b hb
  have hz2 : minZI p ≤ (b.2.2 : Int) :=
    foldl_min_le_mem (blocksOf p) (fun c => (c.2.2 : Int)) (gridSize : Int) b hb
  have hxmax : maxXI p ≤ 7 := by
    refine foldl_max_le (blocksOf p) (fun c => (c.1 : Int)) (-1) 7 (by omega) ?_
    intro x hx
    have hlt : x.1 < 8 := ((mem_blocksOf p x).mp hx).1.1
    show (x.1 : Int) ≤ 7
    omega
  have hymax : maxYI p ≤ 7 := by
    refine foldl_max_le (blocksOf p) (fun c => (c.2.1 : Int)) (-1) 7 (by omega) ?_
    intro x hx
    have hlt : x.2.1 < 8 := ((mem_blocksOf p x).mp hx).1.2.1
    show (x.2.1 : Int) ≤ 7
    omega
  have hzmax : maxZI p ≤ 7 := by
    refine foldl_max_le (blocksOf p) (fun c => (c.2.2 : Int)) (-1) 7 (by omega) ?_
    intro x hx
    have hlt : x.2.2 < 8 := ((mem_blocksOf p x).mp hx).1.2.2
    show (x.2.2 : Int) ≤ 7
    omega
  have hxmin : (0 : Int) ≤ minXI p := by
    refine le_foldl_min (blocksOf p) (fun c => (c.1 : Int)) (gridSize : Int) 0 (by decide) ?_
    intro x hx
    exact Int.natCast_nonneg _
  have hymin : (0 : Int) ≤ minYI p := by
    refine le_foldl_min (blocksOf p) (fun c => (c.2.1 : Int)) (gridSize : Int) 0 (by decide) ?_
    intro x hx
    exact Int.natCast_nonneg _
  have hzmin : (0 : Int) ≤ minZI p := by
    refine le_foldl_min (blocksOf p) (fun c => (c.2.2 : Int)) (gridSize : Int) 0 (by decide) ?_
    intro x hx
    exact Int.natCast_nonneg _
  have hne3 : ¬ maxXI p = -1 := by
    intro heq
    rw [heq] at hx1
    omega
  rw [calculateDimensions, if_neg hne3]
  refine ⟨?_, ?_, ?_, ?_, ?_, ?_⟩ <;> (dsimp only ; omega)

theorem seed_inv (sx sz : Nat) (hsx : sx < 8) (hsz : sz < 8) :
    GrowInv [((sx : Int), 0, (sz : Int))] := by
  refine ⟨by simp, ?_, List.nodup_singleton _, ?_⟩
  · intro c hc
    rcases List.mem_singleton.mp hc with rfl
    rw [inBoundsB_mk]
    refine ⟨by omega, by omega, by omega, by omega, by omega, by omega⟩
  · intro a ha b hb
    rcases List.mem_singleton.mp ha with rfl
    rcases List.mem_singleton.mp hb with rfl
    exact Relation.ReflTransGen.refl

theorem attempt_inv_general (target sx sz : Nat) (rsB : RandSrc)
    (hsx : sx < 8) (hsz : sz < 8) (h1 : 1 ≤ target) (h15 : target ≤ 15) :
    GrowInv (growLoop (target - 1) [((sx : Int), 0, (sz : Int))] rsB).1 ∧
      (growLoop (target - 1) [((sx : Int), 0, (sz : Int))] rsB).1.length = target := by
  have hseed := seed_inv sx sz hsx hsz
  have hstep := growLoop_exact (target - 1) [((sx : Int), 0, (sz : Int))] rsB hseed
    (by simp only [List.length_singleton]; omega)
  refine ⟨hstep.1, ?_⟩
  have h2 : (growLoop (target - 1) [((sx : Int), 0, (sz : Int))] rsB).1.length =
      1 + (target - 1) := hstep.2
  omega

theorem finishAttempt_some (lvl : Level) (grown : List ICoord × RandSrc)
    (pc : PolyCube) (rso : RandSrc) (h : finishAttempt lvl grown = (some pc, rso)) :
    (blockCountsByLevel lvl).min ≤ grown.1.length ∧
      pc = normalizePolyCube (buildCube (grown.1.map toNatC)) ∧ rso = grown.2 := by
  simp only [finishAttempt] at h
  by_cases hc1 : grown.1.length < (blockCountsByLevel lvl).min
  · rw [if_pos hc1] at h
    simp at h
  · rw [if_neg hc1] at h
    split at h
    · simp at h
    · simp only [Prod.mk.injEq, Option.some.injEq] at h
      exact ⟨by omega, h.1.symm, h.2.symm⟩

theorem finishAttempt_of_ok (lvl : Level) (grown : List ICoord × RandSrc)
    (hlen : (blockCountsByLevel lvl).min ≤ grown.1.length)
    (hne : grown.1 ≠ [])
    (hbd : ∀ c ∈ grown.1, inBoundsB c = true) :
    finishAttempt lvl grown =
      (some (normalizePolyCube (buildCube (grown.1.map toNatC))), grown.2) := by
  have hne2 : blocksOf (normalizePolyCube (buildCube (grown.1.map toNatC))) ≠ [] := by
    obtain ⟨c0, hc0⟩ := List.exists_mem_of_ne_nil _ hne
    have h1 : toNatC c0 ∈ blocksOf (buildCube (grown.1.map toNatC)) :=
      (blocksOf_buildCube _ (bounds_map_toNatC _ hbd) _).mpr (List.mem_map_of_mem _ hc0)
    have h2 : normShift (buildCube (grown.1.map toNatC)) (toNatC c0) ∈
        blocksOf (normalizePolyCube (buildCube (grown.1.map toNatC))) := by
      rw [mem_blocksOf_normalize]
      exact List.mem_map_of_mem _ h1
    exact List.ne_nil_of_mem h2
  have hdims := calculateDimensions_ok _ hne2
  have h8 : ((gridSize : Nat) : Int) = 8 := by decide
  have hcond : ¬((gridSize : Int) <
        (calculateDimensions (normalizePolyCube (buildCube (grown.1.map toNatC)))).width ∨
      (gridSize : Int) <
        (calculateDimensions (normalizePolyCube (buildCube (grown.1.map toNatC)))).height ∨
      (gridSize : Int) <
        (calculateDimensions (normalizePolyCube (buildCube (grown.1.map toNatC)))).depth ∨
      (calculateDimensions (normalizePolyCube (buildCube (grown.1.map toNatC)))).width = 0) := by
    obtain ⟨w1, w2, t1, t2, d1, d2⟩ := hdims
    rw [h8]
    push_neg
    exact ⟨by omega, by omega, by omega, by omega⟩
  simp only [finishAttempt]
  rw [if_neg (show ¬ grown.1.length < (blockCountsByLevel lvl).min by omega), if_neg hcond]

theorem runAttempt_some_inv (lvl : Level) (target : Nat) (rs : RandSrc)
    (pc : PolyCube) (rso : RandSrc) (h1 : 1 ≤ target) (h15 : target ≤ 15)
    (h : runAttempt lvl target rs = (some pc, rso)) :
    ∃ bs : List ICoord, GrowInv bs ∧ bs.length = target ∧
      (blockCountsByLevel lvl).min ≤ bs.length ∧
      pc = normalizePolyCube (buildCube (bs.map toNatC)) := by
  simp only [runAttempt] at h
  have hb1 : (draw rs (gridSize / 2)).1 < 8 := by
    simp only [draw]
    exact Nat.lt_of_lt_of_le (Nat.mod_lt _ (by decide)) (by decide)
  have hb2 : (draw (draw rs (gridSize / 2)).2 (gridSize / 2)).1 < 8 := by
    simp only [draw]
    exact Nat.lt_of_lt_of_le (Nat.mod_lt _ (by decide)) (by decide)
  obtain ⟨hinv, hlen⟩ := attempt_inv_general target (draw rs (gridSize / 2)).1
    (draw (draw rs (gridSize / 2)).2 (gridSize / 2)).1
    (draw (draw rs (gridSize / 2)).2 (gridSize / 2)).2 hb1 hb2 h1 h15
  obtain ⟨hmin, hpc, hrs⟩ := finishAttempt_some lvl _ pc rso h
  exact ⟨_, hinv, hlen, hmin, hpc⟩

theorem runAttempt_isSome (lvl : Level) (target : Nat) (rs : RandSrc)
    (hmin : (blockCountsByLevel lvl).min ≤ target) (h15 : target ≤ 15)
    (h1 : 1 ≤ target) :
    ∃ pc rso, runAttempt lvl target rs = (some pc, rso) := by
  simp only [runAttempt]
  have hb1 : (draw rs (gridSize / 2)).1 < 8 := by
    simp only [draw]
    exact Nat.lt_of_lt_of_le (Nat.mod_lt _ (by decide)) (by decide)
  have hb2 : (draw (draw rs (gridSize / 2)).2 (gridSize / 2)).1 < 8 := by
    simp only [draw]
    exact Nat.lt_of_lt_of_le (Nat.mod_lt _ (by decide)) (by decide)
  obtain ⟨hinv, hlen⟩ := attempt_inv_general target (draw rs (gridSize / 2)).1
    (draw (draw rs (gridSize / 2)).2 (gridSize / 2)).1
    (draw (draw rs (gridSize / 2)).2 (gridSize / 2)).2 hb1 hb2 h1 h15
  rw [finishAttempt_of_ok lvl _ (by omega) hinv.1 hinv.2.1]
  exact ⟨_, _, rfl⟩

theorem genLoop_some_inv (lvl : Level) (target : Nat) (h1 : 1 ≤ target)
    (h15 : target ≤ 15) (fuel : Nat) :
    ∀ (rs : RandSrc) (pc : PolyCube), genLoop lvl target fuel rs = some pc →
    ∃ bs : List ICoord, GrowInv bs ∧ bs.length = target ∧
      (blockCountsByLevel lvl).min ≤ bs.length ∧
      pc = normalizePolyCube (buildCube (bs.map toNatC)) := by
  induction fuel with
  | zero =>
    intro rs pc h
    simp only [genLoop] at h
    exact Option.noConfusion h
  | succ n ih =>
    intro rs pc h
    simp only [genLoop] at h
    rcases hatt : runAttempt lvl target rs with ⟨opt, rs2⟩
    rw [hatt] at h
    cases opt with
    | none =>
      have h2 : genLoop lvl target n rs2 = some pc := h
      exact ih rs2 pc h2
    | some pc2 =>
      have h2 : some pc2 = some pc := h
      obtain rfl : pc2 = pc := Option.some.inj h2
      exact runAttempt_some_inv lvl target rs pc2 rs2 h1 h15 hatt

theorem adjN_of_adjI (u v : ICoord) (hu : inBoundsB u = true) (hv : inBoundsB v = true)
    (h : adjI u v) : adjN (toNatC u) (toNatC v) := by
  obtain ⟨u1, u2, u3⟩ := u
  obtain ⟨v1, v2, v3⟩ := v
  rw [inBoundsB_mk] at hu hv
  dsimp only [adjI] at h
  dsimp only [adjN, toNatC]
  omega

theorem adjN_shift (a b : Nat × Nat × Nat) (mx my mz : Nat)
    (hax : mx ≤ a.1) (hay : my ≤ a.2.1) (haz : mz ≤ a.2.2)
    (hbx : mx ≤ b.1) (hby : my ≤ b.2.1) (hbz : mz ≤ b.2.2)
    (h : adjN a b) :
    adjN (a.1 - mx, a.2.1 - my, a.2.2 - mz) (b.1 - mx, b.2.1 - my, b.2.2 - mz) := by
  obtain ⟨a1, a2, a3⟩ := a
  obtain ⟨b1, b2, b3⟩ := b
  dsimp only [adjN] at h ⊢
  dsimp only at hax hay haz hbx hby hbz
  omega

theorem sixConnected_of_growInv (bs : List ICoord) (hinv : GrowInv bs) :
    SixConnected (normalizePolyCube (buildCube (bs.map toNatC))) := by
  obtain ⟨hne, hbd, hnd, hconn⟩ := hinv
  have hLbnd := bounds_map_toNatC bs hbd
  have hmemQ : ∀ b, b ∈ blocksOf (buildCube (bs.map toNatC)) ↔ b ∈ bs.map toNatC :=
    blocksOf_buildCube _ hLbnd
  intro a ha b hb
  rw [mem_blocksOf_normalize] at ha hb
  obtain ⟨a0, ha0, rfl⟩ := List.mem_map.mp ha
  obtain ⟨b0, hb0, rfl⟩ := List.mem_map.mp hb
  obtain ⟨ca, hca, rfl⟩ := List.mem_map.mp ((hmemQ a0).mp ha0)
  obtain ⟨cb, hcb, rfl⟩ := List.mem_map.mp ((hmemQ b0).mp hb0)
  have hpath := hconn ca hca cb hcb
  refine Relation.ReflTransGen.lift
    (fun c => normShift (buildCube (bs.map toNatC)) (toNatC c)) ?_ hpath
  rintro u v ⟨hu, hv, hadj⟩
  have huQ : toNatC u ∈ blocksOf (buildCube (bs.map toNatC)) :=
    (hmemQ _).mpr (List.mem_map_of_mem _ hu)
  have hvQ : toNatC v ∈ blocksOf (buildCube (bs.map toNatC)) :=
    (hmemQ _).mpr (List.mem_map_of_mem _ hv)
  constructor
  · have hvP : normShift (buildCube (bs.map toNatC)) (toNatC v) ∈
        blocksOf (normalizePolyCube (buildCube (bs.map toNatC))) := by
      rw [mem_blocksOf_normalize]
      exact List.mem_map_of_mem _ hvQ
    exact ((mem_blocksOf _ _).mp hvP).2
  · have hN : adjN (toNatC u) (toNatC v) := adjN_of_adjI u v (hbd u hu) (hbd v hv) hadj
    have h1 : minXof (buildCube (bs.map toNatC)) ≤ (toNatC u).1 :=
      foldl_min_le_mem (blocksOf (buildCube (bs.map toNatC))) (fun c => c.1) gridSize _ huQ
    have h2 : minYof (buildCube (bs.map toNatC)) ≤ (toNatC u).2.1 :=
      foldl_min_le_mem (blocksOf (buildCube (bs.map toNatC))) (fun c => c.2.1) gridSize _ huQ
    have h3 : minZof (buildCube (bs.map toNatC)) ≤ (toNatC u).2.2 :=
      foldl_min_le_mem (blocksOf (buildCube (bs.map toNatC))) (fun c => c.2.2) gridSize _ huQ
    have h4 : minXof (buildCube (bs.map toNatC)) ≤ (toNatC v).1 :=
      foldl_min_le_mem (blocksOf (buildCube (bs.map toNatC))) (fun c => c.1) gridSize _ hvQ
    have h5 : minYof (buildCube (bs.map toNatC)) ≤ (toNatC v).2.1 :=
      foldl_min_le_mem (blocksOf (buildCube (bs.map toNatC))) (fun c => c.2.1) gridSize _ hvQ
    have h6 : minZof (buildCube (bs.map toNatC)) ≤ (toNatC v).2.2 :=
      foldl_min_le_mem (blocksOf (buildCube (bs.map toNatC))) (fun c => c.2.2) gridSize _ hvQ
    exact adjN_shift (toNatC u) (toNatC v) _ _ _ h1 h2 h3 h4 h5 h6 hN

/-- C2: for every difficulty tier and random stream, a successfully generated
polyCube contains a number of occupied voxels within the inclusive range
`[min, max]` configured for that tier in BLOCK_COUNTS_BY_LEVEL. -/
theorem c2_block_count_in_range (lvl : Level) (rs : RandSrc) (pc : PolyCube)
    (h : generateContiguousShape lvl rs = some pc) :
    (blockCountsByLevel lvl).min ≤ blockCount pc ∧
      blockCount pc ≤ (blockCountsByLevel lvl).max := by
  have hrange : (blockCountsByLevel lvl).min ≤ (blockCountsByLevel lvl).max ∧
      4 ≤ (blockCountsByLevel lvl).min ∧ (blockCountsByLevel lvl).max ≤ 15 := by
    cases lvl <;> simp [blockCountsByLevel]
  simp only [generateContiguousShape] at h
  have hdlt : (draw rs ((blockCountsByLevel lvl).max - (blockCountsByLevel lvl).min + 1)).1 <
      (blockCountsByLevel lvl).max - (blockCountsByLevel lvl).min + 1 := by
    simp only [draw]
    exact Nat.mod_lt _ (by omega)
  obtain ⟨bs, hinv, hlen, hmin, hpc⟩ := genLoop_some_inv lvl
    ((draw rs ((blockCountsByLevel lvl).max - (blockCountsByLevel lvl).min + 1)).1 +
      (blockCountsByLevel lvl).min)
    (by omega) (by omega) maxRegenAttempts
    ((draw rs ((blockCountsByLevel lvl).max - (blockCountsByLevel lvl).min + 1)).2) pc h
  have hbc : blockCount pc = bs.length := by
    rw [hpc, blockCount_normalize,
      blockCount_buildCube _ (bounds_map_toNatC bs hinv.2.1)
        (nodup_map_toNatC bs hinv.2.2.1 hinv.2.1),
      List.length_map]
  exact ⟨by omega, by omega⟩

set_option maxRecDepth 200000 in
/-- C2 witness: at level 1 with the zero random stream, generation succeeds and
the block count of the result lies in the level-1 range. -/
theorem c2_block_count_witness :
    (blockCountsByLevel Level.level1).min ≤
        blockCount ((generateContiguousShape Level.level1 []).getD zeroCube) ∧
      blockCount ((generateContiguousShape Level.level1 []).getD zeroCube) ≤
        (blockCountsByLevel Level.level1).max :=
  c2_block_count_in_range Level.level1 []
    ((generateContiguousShape Level.level1 []).getD zeroCube) (by decide)

theorem genLoop_of_first_some (lvl : Level) (target : Nat) (fuel : Nat) (rs : RandSrc)
    (pc : PolyCube) (rso : RandSrc)
    (hatt : runAttempt lvl target rs = (some pc, rso)) :
    genLoop lvl target (fuel + 1) rs = some pc := by
  simp only [genLoop]
  rw [hatt]

theorem genLoopRepick_of_first_some (lvl : Level) (fuel : Nat) (rs : RandSrc)
    (pc : PolyCube) (rso : RandSrc)
    (hatt : runAttempt lvl
        ((draw rs ((blockCountsByLevel lvl).max - (blockCountsByLevel lvl).min + 1)).1 +
          (blockCountsByLevel lvl).min)
        ((draw rs ((blockCountsByLevel lvl).max - (blockCountsByLevel lvl).min + 1)).2) =
      (some pc, rso)) :
    genLoopRepick lvl (fuel + 1) rs = some pc := by
  simp only [genLoopRepick]
  rw [hatt]

/-- C3: every successfully generated polyCube is 6-connected: any two occupied
voxels are joined by a path of occupied voxels in which consecutive members
differ by exactly 1 along exactly one axis. -/
theorem c3_generated_shape_six_connected (lvl : Level) (rs : RandSrc) (pc : PolyCube)
    (h : generateContiguousShape lvl rs = some pc) : SixConnected pc := by
  have hrange : (blockCountsByLevel lvl).min ≤ (blockCountsByLevel lvl).max ∧
      4 ≤ (blockCountsByLevel lvl).min ∧ (blockCountsByLevel lvl).max ≤ 15 := by
    cases lvl <;> simp [blockCountsByLevel]
  simp only [generateContiguousShape] at h
  have hdlt : (draw rs ((blockCountsByLevel lvl).max - (blockCountsByLevel lvl).min + 1)).1 <
      (blockCountsByLevel lvl).max - (blockCountsByLevel lvl).min + 1 := by
    simp only [draw]
    exact Nat.mod_lt _ (by omega)
  obtain ⟨bs, hinv, hlen, hmin, hpc⟩ := genLoop_some_inv lvl
    ((draw rs ((blockCountsByLevel lvl).max - (blockCountsByLevel lvl).min + 1)).1 +
      (blockCountsByLevel lvl).min)
    (by omega) (by omega) maxRegenAttempts
    ((draw rs ((blockCountsByLevel lvl).max - (blockCountsByLevel lvl).min + 1)).2) pc h
  rw [hpc]
  exact sixConnected_of_growInv bs hinv

set_option maxRecDepth 200000 in
/-- C3 witness: at level 1 with the zero random stream, generation succeeds and
the resulting polyCube is 6-connected. -/
theorem c3_six_connected_witness :
    SixConnected ((generateContiguousShape Level.level1 []).getD zeroCube) :=
  c3_generated_shape_six_connected Level.level1 []
    ((generateContiguousShape Level.level1 []).getD zeroCube) (by decide)

/-- C9: the generator draws the target block count once, before the retry loop,
but this is extensionally equal to re-drawing it uniformly in `[min, max]` at
the start of every attempt: on every level and random stream the generator
agrees with the per-attempt re-picking variant, because the first attempt
always succeeds (so later draws are never reached in either algorithm). -/
theorem c9_target_fresh_per_attempt (lvl : Level) (rs : RandSrc) :
    generateContiguousShape lvl rs = generateShapeRepick lvl rs := by
  have hrange : (blockCountsByLevel lvl).min ≤ (blockCountsByLevel lvl).max ∧
      4 ≤ (blockCountsByLevel lvl).min ∧ (blockCountsByLevel lvl).max ≤ 15 := by
    cases lvl <;> simp [blockCountsByLevel]
  have hdlt : (draw rs ((blockCountsByLevel lvl).max - (blockCountsByLevel lvl).min + 1)).1 <
      (blockCountsByLevel lvl).max - (blockCountsByLevel lvl).min + 1 := by
    simp only [draw]
    exact Nat.mod_lt _ (by omega)
  obtain ⟨pc, rso, hatt⟩ := runAttempt_isSome lvl
    ((draw rs ((blockCountsByLevel lvl).max - (blockCountsByLevel lvl).min + 1)).1 +
      (blockCountsByLevel lvl).min)
    ((draw rs ((blockCountsByLevel lvl).max - (blockCountsByLevel lvl).min + 1)).2)
    (by omega) (by omega) (by omega)
  have hL : generateContiguousShape lvl rs = some pc := by
    show genLoop lvl
      ((draw rs ((blockCountsByLevel lvl).max - (blockCountsByLevel lvl).min + 1)).1 +
        (blockCountsByLevel lvl).min) (49 + 1)
      ((draw rs ((blockCountsByLevel lvl).max - (blockCountsByLevel lvl).min + 1)).2) = some pc
    exact genLoop_of_first_some lvl _ 49 _ pc rso hatt
  have hR : generateShapeRepick lvl rs = some pc := by
    show genLoopRepick lvl (49 + 1) rs = some pc
    exact genLoopRepick_of_first_some lvl 49 rs pc rso hatt
  rw [hL, hR]
